import Mathlib

/-!
Verification of the llvmcpy generator core (`llvmcpy/_generator.py`).

This file gives a shallow embedding of the generator's data model and
algorithms — the enum resolver (`handle_enums`), the name normalizer
(`to_python_case` / `normalize_name`), the signature classifier and code
generator (`Generator.create_function`), and the runtime semantics of the
emitted wrapper templates (`Generator.generate_wrapper`) — together with
theorems settling the specification's claims about them.

Python integers are modelled as `Int`; Python byte strings as `List Nat`
(one entry per byte); CFFI handles/addresses as `Nat` with `0` playing the
role of `ffi.NULL`.
-/

namespace LLVMCPy

/-! ## Python arithmetic primitives

Python's `<<` and `>>` on arbitrary-precision integers: `a << n = a * 2^n`
and `a >> n` is floor division by `2^n`; both raise `ValueError` for a
negative shift count (modelled as `none`, an aborted evaluation).
`|` and `&` are two's-complement bitwise operations, which is exactly
`Int.lor` / `Int.land`. -/

def pyShl (a b : Int) : Option Int :=
  if b < 0 then none else some (a * (2 : Int) ^ b.toNat)

def pyShr (a b : Int) : Option Int :=
  if b < 0 then none else some (Int.fdiv a ((2 : Int) ^ b.toNat))

/-! Python string primitives (`startswith`, `endswith`, slicing, `len`),
implemented over the character list so that concrete instances reduce
inside the kernel.  The generator's strings are ASCII, where Python's
character indexing and Lean's `String.data` agree. -/

/-- `listStartsWith s p`: `p` is a prefix of `s`. -/
def listStartsWith : List Char → List Char → Bool
  | _, [] => true
  | [], _ :: _ => false
  | a :: as, b :: bs => a = b && listStartsWith as bs

/-- Python `s.startswith(p)`. -/
def strStarts (s p : String) : Bool :=
  listStartsWith s.data p.data

/-- Python `s.endswith(p)`: compare `p` against the last `len(p)`
characters (when `p` is longer than `s` the prefix test fails on the
shorter remainder, as it should). -/
def strEnds (s p : String) : Bool :=
  listStartsWith (s.data.drop (s.data.length - p.data.length)) p.data

/-- Python `s[n:]` (by characters). -/
def strDrop (s : String) (n : Nat) : String :=
  String.mk (s.data.drop n)

/-- Python `s[:n]` for `0 ≤ n` (by characters). -/
def strTake (s : String) (n : Nat) : String :=
  String.mk (s.data.take n)

/-- Python `len(s)` (by characters). -/
def strLen (s : String) : Nat :=
  s.data.length

/-! ## Enum resolver (`handle_enums`)

`handle_enums` walks the parsed AST; for each enum typedef it folds the
enumerator list into a single Python dict holding both the
integer-to-name and name-to-integer directions.  We embed the enumerator
expressions (`pycparser` `Constant` / `ID` / `BinaryOp` nodes), the
recursive evaluator `handle_expression`, and the per-list fold of
`EnumVisitor.visit_EnumeratorList`.

A `Constant` node carries the integer denoted by its literal spelling
(the source parses the spelling with `int(value.rstrip("U"), 0)`); an
unsupported expression shape or an unbound identifier hits an `assert`
in the source, modelled as `none`. -/

inductive CExpr where
  | const (value : Int)
  | ident (name : String)
  | binOp (op : String) (left : CExpr) (right : CExpr)
deriving DecidableEq, Repr

/-- Lookup in the identifier scope (a Python dict keyed by raw name,
modelled as an association list). -/
def sLookup : List (String × Int) → String → Option Int
  | [], _ => none
  | p :: rest, n => if p.1 = n then some p.2 else sLookup rest n

/-- Embedding of `handle_expression(ctx, expression)`:  constants
evaluate to themselves, identifiers must already be bound in the context,
and exactly the binary operators `| & + - << >>` are supported. -/
def handleExpression (ctx : List (String × Int)) : CExpr → Option Int
  | .const v => some v
  | .ident n =>
    match sLookup ctx n with
    | some v => some v
    | none => none
  | .binOp op l r => do
    let left ← handleExpression ctx l
    let right ← handleExpression ctx r
    if op = "|" then some (Int.lor left right)
    else if op = "&" then some (Int.land left right)
    else if op = "+" then some (left + right)
    else if op = "-" then some (left - right)
    else if op = "<<" then pyShl left right
    else if op = ">>" then pyShr left right
    else none

/-- Embedding of the local `remove_prefix` of `handle_enums`: strip a
leading `LLVM` unless the name continues with `LLVM_`. -/
def stripLLVM (name : String) : String :=
  if strStarts name "LLVM" && !strStarts name "LLVM_" then strDrop name 4 else name

/-- One enumerator of an enumerator list: a raw C name and an optional
initializer expression. -/
structure Enumerator where
  name : String
  value : Option CExpr
deriving DecidableEq, Repr

/-- Key of the combined enum dict: Python uses a single dict whose keys
are either `int`s (value-to-name direction) or `str`s (name-to-value
direction); the two key kinds never collide. -/
inductive EKey where
  | int (v : Int)
  | str (s : String)
deriving DecidableEq, Repr

/-- Value of the combined enum dict. -/
inductive EVal where
  | int (v : Int)
  | str (s : String)
deriving DecidableEq, Repr

/-- Python-dict model: an insertion-ordered association list.  `dSet`
is `d[k] = v` — update in place when the key exists, append otherwise. -/
def dSet : List (EKey × EVal) → EKey → EVal → List (EKey × EVal)
  | [], k, v => [(k, v)]
  | (k0, v0) :: rest, k, v =>
    if k0 = k then (k0, v) :: rest else (k0, v0) :: dSet rest k v

/-- Python-dict model: `d[k]` lookup. -/
def dGet : List (EKey × EVal) → EKey → Option EVal
  | [], _ => none
  | (k0, v0) :: rest, k => if k0 = k then some v0 else dGet rest k

/-- Python-dict model: `k in d`. -/
def dHas (d : List (EKey × EVal)) (k : EKey) : Bool :=
  (dGet d k).isSome

abbrev EnumMap := List (EKey × EVal)

/-- Embedding of the fold in `EnumVisitor.visit_EnumeratorList`, for one
enumerator list.  `value` is the running value, `mapping` the combined
dict under construction, `context` the raw-name scope used by
`handle_expression`.  Mirrors the source statement by statement:

    value = handle_expression(context, enum.value)  (if initializer)
    name = remove_prefix(enum.name)
    mapping[value] = name
    if name not in mapping: mapping[name] = value
    context[enum.name] = value
    value += 1
-/
def processList : Int → EnumMap → List (String × Int) → List Enumerator →
    Option EnumMap
  | _, mapping, _, [] => some mapping
  | value, mapping, context, e :: rest => do
    let value ←
      match e.value with
      | some expr => handleExpression context expr
      | none => some value
    let name := stripLLVM e.name
    let mapping := dSet mapping (.int value) (.str name)
    let mapping :=
      if !dHas mapping (.str name) then dSet mapping (.str name) (.int value)
      else mapping
    let context := (e.name, value) :: context.filter (fun p => p.1 ≠ e.name)
    processList (value + 1) mapping context rest

/-- Processing one enumerator list starts from running value `0`, an
empty mapping and an empty context (the source creates all three afresh
inside `visit_EnumeratorList`, so every list restarts from scratch). -/
def processEnumList (enums : List Enumerator) : Option EnumMap :=
  processList 0 [] [] enums

/-- Embedding of `handle_enums` over the whole declaration feed: one
`EnumMap` per enum typedef, keyed by the typedef's stripped name. -/
def handleEnums (typedefs : List (String × List Enumerator)) :
    Option (List (String × EnumMap)) :=
  typedefs.mapM (fun td => do
    let m ← processEnumList td.2
    pure (stripLLVM td.1, m))

/-! ## Name normalizer (`Generator.to_python_case`, `Generator.normalize_name`)

The generator's names are ASCII, so Python's `str.isupper` / `islower` /
`lower` coincide with the ASCII character predicates used below. -/

/-- Python `s.isupper()`: at least one cased character and no lowercase
cased character (for the ASCII names at hand: some uppercase letter and
no lowercase letter). -/
def pyIsUpper (s : List Char) : Bool :=
  s.any (·.isUpper) && !s.any (·.isLower)

/-- Three-way zip truncating at the shortest list, like Python's `zip`. -/
def zip3Trunc : List Char → List Char → List Char → List (Char × Char × Char)
  | a :: as, b :: bs, c :: cs => (a, b, c) :: zip3Trunc as bs cs
  | _, _, _ => []

/-- Embedding of `Generator.to_python_case`.  Statement by statement:

    if name.isupper(): return name.lower()
    result = ""
    for prev, cur, next in zip("a" + name[:-1], name, name[1:] + "a"):
        if (prev.islower() and cur.isupper()) or (next.islower() and cur.isupper()):
            result += "_"
        result += cur.lower()
    if name[-2:].isupper():
        result = result[:-2] + result[-1:]
    return result[1:]
-/
def toPythonCase (name : String) : String :=
  let cs := name.data
  if pyIsUpper cs then String.mk (cs.map Char.toLower)
  else
    let triples := zip3Trunc ('a' :: cs.dropLast) cs (cs.drop 1 ++ ['a'])
    let result := triples.foldl (fun acc t =>
      let sep := (t.1.isLower && t.2.1.isUpper) || (t.2.2.isLower && t.2.1.isUpper)
      (if sep then acc ++ ['_'] else acc) ++ [t.2.1.toLower]) []
    let result :=
      if pyIsUpper (cs.drop (cs.length - 2)) then
        result.take (result.length - 2) ++ result.drop (result.length - 1)
      else result
    String.mk (result.drop 1)

/-- The non-recursive tail of `Generator.normalize_name`: case conversion
followed by the ordered prefix/suffix rewrites (`get_<cls>_` / `set_<cls>_`
drop the middle segment, `_in_<cls>` and `_<cls>` suffixes are dropped;
the suffix rules only fire for a non-empty, i.e. truthy, class name). -/
def normalizeCore (className : Option String) (originalName : String) : String :=
  let name := toPythonCase originalName
  let cls := match className with | none => "" | some c => toPythonCase c
  let getPre := "get_" ++ cls ++ "_"
  let setPre := "set_" ++ cls ++ "_"
  if strStarts name getPre then "get_" ++ strDrop name (strLen getPre)
  else if strStarts name setPre then "set_" ++ strDrop name (strLen setPre)
  else if cls ≠ "" && strEnds name ("_in_" ++ cls) then
    strTake name (strLen name - (strLen cls + 4))
  else if cls ≠ "" && strEnds name ("_" ++ cls) then
    strTake name (strLen name - (strLen cls + 1))
  else name

/-- The leading-owner-name recursion of `Generator.normalize_name`
(`if original_name.startswith(original_class_name): recurse on the rest`),
driven by fuel.  Each firing of the recursion strips a non-empty leading
class name, so `length + 1` fuel always suffices; the fuel-exhausted arm
is reached only for the empty class name, on which the Python source would
recurse forever (the generator only ever passes `None` or a non-empty
class name). -/
def normalizeNameAux : Nat → Option String → String → String
  | 0, cn, n => normalizeCore cn n
  | fuel + 1, cn, n =>
    match cn with
    | some c =>
      if strStarts n c then normalizeNameAux fuel cn (strDrop n (strLen c))
      else normalizeCore cn n
    | none => normalizeCore cn n

/-- Embedding of `Generator.normalize_name`. -/
def normalizeName (className : Option String) (originalName : String) : String :=
  normalizeNameAux (strLen originalName + 1) className originalName

/-! ## Signature classifier (`Generator.create_function`)

CFFI type descriptors are embedded as a recursive shape type, with the
`kind` / `cname` fields of the source's `arg_type` objects; the claims
only exercise ASCII `cname` spellings. -/

/-- A CFFI type descriptor (`kind` plus, for pointers, the pointee). -/
inductive CType where
  | primitive (cname : String)
  | pointer (item : CType)
  | struct (cname : String)
  | enum (cname : String)
  | function
  | void
deriving DecidableEq, Repr

/-- Embedding of `Generator.is_llvm_type`. -/
def isLLVMType (name : String) : Bool :=
  strStarts name "struct LLVM" || strStarts name "LLVM"

/-- Embedding of `Generator.remove_llvm_prefix` (minus its assertion: all
call sites guard with `is_llvm_type` first): strip `struct `, then `LLVM`,
then a leading `Opaque`. -/
def stripLLVMTypeName (name : String) : String :=
  let name := if strStarts name "struct " then strDrop name 7 else name
  let name := strDrop name 4
  if strStarts name "Opaque" then strDrop name 6 else name

/-- The call-boundary expression emitted for one argument slot of the
generated wrapper — one constructor per distinct string template the
source appends to its `arguments` list. -/
inductive ArgExpr where
  /-- `([x.in_ptr() for x in argN] if type(argN) is list else argN.out_ptr())` -/
  | listOrOut (i : Nat)
  /-- `argN` passed through unchanged -/
  | argRef (i : Nat)
  /-- `argN.in_ptr()` -/
  | inPtr (i : Nat)
  /-- `encode_string(argN)` -/
  | encodeStr (i : Nat)
  /-- `len(argN)` (array-length adjacency rewrite) -/
  | lenOf (i : Nat)
  /-- `result.out_ptr()` (boolean-error rewrite) -/
  | resultOutPtr
  /-- `error_str` (boolean-error rewrite) -/
  | errorStr
  /-- `length_buffer` (string-plus-length rewrite) -/
  | lengthBuffer
deriving DecidableEq, Repr

instance : Inhabited ArgExpr := ⟨.argRef 0⟩

/-- Fatal classification failure: one of the `assert False` branches of
`create_function`, aborting the whole generation pass. -/
inductive GenError where
  | unsupportedShape
deriving DecidableEq, Repr

/-- Per-argument shape dispatch of `create_function`, in the source's
branch order.  The result carries the emitted call-boundary expression and
the two tracking flags (`out_args` / `out_strings` membership). -/
def argExprFor (index : Nat) (argType : CType) : Except GenError (ArgExpr × Bool × Bool) :=
  match argType with
  | .pointer pointee =>
    match pointee with
    | .pointer (.struct s) =>
      if isLLVMType s then .ok (.listOrOut index, true, false)
      else .error .unsupportedShape
    | .pointer (.primitive c) =>
      if c = "char" then .ok (.argRef index, false, true)
      else .error .unsupportedShape
    | .struct s =>
      if isLLVMType s then .ok (.inPtr index, false, false)
      else .error .unsupportedShape
    | .primitive c =>
      if c = "char" then .ok (.encodeStr index, false, false)
      else .ok (.argRef index, false, false)
    | .void => .ok (.argRef index, false, false)
    | _ => .error .unsupportedShape
  | .primitive _ => .ok (.argRef index, false, false)
  | .enum _ => .ok (.argRef index, false, false)
  | .function => .ok (.argRef index, false, false)
  | _ => .error .unsupportedShape

/-- The recognized argument shapes, written out as the spec's shape table;
`argExprFor` succeeds exactly on these (proved in `argExprFor_isOk`). -/
def supportedArg : CType → Bool
  | .pointer (.pointer (.struct s)) => isLLVMType s
  | .pointer (.pointer (.primitive c)) => c = "char"
  | .pointer (.struct s) => isLLVMType s
  | .pointer (.primitive _) => true
  | .pointer .void => true
  | .primitive _ => true
  | .enum _ => true
  | .function => true
  | _ => false

/-- The classification loop over indexed arguments: append the per-arg
outcome in order, aborting at the first unsupported shape (the loop's
`assert False`). -/
def classifyList : List (Nat × CType) → Except GenError (List (ArgExpr × Bool × Bool))
  | [] => .ok []
  | p :: rest =>
    match argExprFor p.1 p.2 with
    | .error e => .error e
    | .ok x =>
      match classifyList rest with
      | .error e => .error e
      | .ok xs => .ok (x :: xs)

/-- The whole classification loop over the effective (post-owner)
argument list. -/
def classifyArgs (effArgs : List CType) : Except GenError (List (ArgExpr × Bool × Bool)) :=
  classifyList effArgs.enum

/-- `out_args`: the indices flagged as LLVM-object-out arguments. -/
def outIdxsOf (classified : List (ArgExpr × Bool × Bool)) : List Nat :=
  (classified.enum.filter (fun p => p.2.2.1)).map (·.1)

/-- `out_strings`: the indices flagged as `char **` arguments. -/
def strIdxsOf (classified : List (ArgExpr × Bool × Bool)) : List Nat :=
  (classified.enum.filter (fun p => p.2.2.2)).map (·.1)

/-- One slot of the public (Python-level) parameter list: a retained
positional `argN`, or the `encoding="utf-8"` keyword parameter of the
string-plus-length rewrite.  `none` slots are parameters removed by a
rewrite. -/
inductive PubParam where
  | arg (i : Nat)
  | encodingParam
deriving DecidableEq, Repr

/-- The array-length adjacency rewrite: for every object-out index
immediately followed by a `unsigned int` primitive argument, the follower
becomes `len(argN)` at the call boundary and is dropped from the public
parameter list. -/
def adjacencyRewrite (effArgs : List CType) (outArgs : List Nat)
    (st : List ArgExpr × List (Option PubParam)) :
    List ArgExpr × List (Option PubParam) :=
  outArgs.foldl (fun st outArg =>
    if effArgs.getD (outArg + 1) .void = .primitive "unsigned int" then
      (st.1.set (outArg + 1) (.lenOf outArg), st.2.set (outArg + 1) none)
    else st) st

/-- Which wrapper-body template `create_function` emits. -/
inductive Strategy where
  /-- int return rewritten to raise-on-nonzero: the optional object-out
  index, the wrapper type name allocated for it (`result = T()`), and
  whether a `char **` error-message slot is scratch-allocated. -/
  | boolError (outIdx : Option Nat) (resultTypeName : Option String) (hasErrMsg : Bool)
  /-- `char *` return plus trailing `unsigned *` length out-parameter. -/
  | stringLength (bufCName : String)
  /-- default case, pointer to LLVM object: wrap in the owning class. -/
  | wrapObject (typeName : String)
  /-- default case, `char *` return: `ffi.string` (NUL-terminated). -/
  | cString
  /-- default case: return the call's value unchanged. -/
  | plainReturn
deriving DecidableEq, Repr

/-- The synthesized `iter_<x>s` helper (names as emitted). -/
structure IterInfo where
  iterMethodName : String
  firstMethodName : String
  nextMethodName : String
deriving DecidableEq, Repr

/-- A parsed C function prototype (`ffi.typeof(field)`). -/
structure Prototype where
  args : List CType
  result : CType
deriving DecidableEq, Repr

/-- The outcome of `create_function` for one function: everything the
emitted source text determines about the wrapper's runtime behavior.
(The emitted property table is orthogonal to the claims and not
modelled.) -/
structure Generated where
  methodName : String
  isClassMethod : Bool
  publicParams : List (Option PubParam)
  callArgs : List ArgExpr
  strategy : Strategy
  iter : Option IterInfo
deriving DecidableEq, Repr

/-- The list of unsigned spellings accepted by the string-plus-length
rewrite (the module-level `unsigned_ints` set). -/
def unsignedInts : List String := ["unsigned", "unsigned int", "unsigned long"]

/-- `prototype.args[i].item.item.cname` for the guarded object-out case. -/
def itemItemCName : CType → String
  | .pointer (.pointer (.struct s)) => s
  | .pointer (.pointer (.primitive s)) => s
  | _ => ""

/-- Embedding of `Generator.create_function`.  `classes` is the grouping
table of `generate_wrapper` (full LLVM type name to its member functions,
each a method name with its prototype; the member library tag plays no
role in classification and is dropped). -/
def createFunction (name : String) (proto : Prototype) (className : Option String)
    (classes : List (String × List (String × Prototype))) :
    Except GenError Generated :=
  let isClassMethod := className.isSome
  let skipArgs := if isClassMethod then 1 else 0
  let effArgs := proto.args.drop skipArgs
  match classifyArgs effArgs with
  | .error e => .error e
  | .ok classified =>
  let arguments := classified.map (·.1)
  let outArgs := outIdxsOf classified
  let outStrings := strIdxsOf classified
  let functionArguments : List (Option PubParam) :=
    (List.range effArgs.length).map (fun i => some (.arg i))
  let methodName := normalizeName className (strDrop name 4)
  let returnType := proto.result
  let lastArg := effArgs.getLast?
  let (arguments, functionArguments) :=
    adjacencyRewrite effArgs outArgs (arguments, functionArguments)
  let hasOutArg := outArgs.length = 1
  let hasErrorMessage :=
    outStrings.length = 1 && outStrings.getD 0 0 = arguments.length - 1
  let lastUnsigned : Option String :=
    match lastArg with
    | some (.pointer (.primitive c)) =>
      if c ∈ unsignedInts then some c else none
    | _ => none
  let (arguments, functionArguments, strategy) :=
    if returnType = .primitive "int" && (hasOutArg || hasErrorMessage) then
      let st :=
        if hasOutArg then
          let outArg := outArgs.getD 0 0
          (arguments.set outArg .resultOutPtr, functionArguments.set outArg none)
        else (arguments, functionArguments)
      let st :=
        if hasErrorMessage then
          let strArg := outStrings.getD 0 0
          (st.1.set strArg .errorStr, st.2.set strArg none)
        else st
      let resultTypeName :=
        if hasOutArg then
          let outArg := outArgs.getD 0 0
          some (stripLLVMTypeName (itemItemCName (proto.args.getD (outArg + skipArgs) .void)))
        else none
      (st.1, st.2,
       .boolError (if hasOutArg then some (outArgs.getD 0 0) else none)
         resultTypeName hasErrorMessage)
    else
      match returnType, lastUnsigned with
      | .pointer (.primitive "char"), some c =>
        (arguments.set (effArgs.length - 1) .lengthBuffer,
         functionArguments.set (effArgs.length - 1) (some .encodingParam),
         .stringLength c)
      | _, _ =>
        (arguments, functionArguments,
         match returnType with
         | .pointer (.struct s) =>
           if isLLVMType s then .wrapObject (stripLLVMTypeName s) else .plainReturn
         | .pointer (.primitive c) => if c = "char" then .cString else .plainReturn
         | _ => .plainReturn)
  let iter : Option IterInfo :=
    if isClassMethod && strStarts name "LLVMGetFirst" && proto.args.length = 1 then
      match returnType with
      | .pointer (.struct s) =>
        if isLLVMType s then
          let iteratedName := strDrop name 12
          match classes.lookup s with
          | some members =>
            match members.find? (fun m =>
                m.1 = "LLVMGetNext" ++ iteratedName &&
                m.2.args = [returnType] && m.2.result = returnType) with
            | some _ =>
              some { iterMethodName := "iter_" ++ normalizeName className iteratedName ++ "s"
                     firstMethodName := methodName
                     nextMethodName :=
                       normalizeName (some (stripLLVMTypeName s))
                         (strDrop ("LLVMGetNext" ++ iteratedName) 4) }
            | none => none
          | none => none
        else none
      | _ => none
    else none
  .ok { methodName := methodName
        isClassMethod := isClassMethod
        publicParams := functionArguments
        callArgs := arguments
        strategy := strategy
        iter := iter }

/-! ## Runtime semantics of the emitted wrapper templates

`generate_wrapper` emits, per opaque handle kind, a fixed class template
(`__new__` / `__init__` / `__hash__` / `__eq__` / `in_ptr` / `out_ptr`)
and, per function, one of the fixed method-body templates selected by
`Strategy`.  The semantics of those templates is embedded here.  A CFFI
handle is a `Nat` address, `0` standing for `ffi.NULL`. -/

/-- A generated wrapper instance after `__init__`: `ptr` is a fresh
`T **` cell and `handle` its current content `ptr[0]` (`0` = unbound). -/
structure Wrapper where
  handle : Nat
deriving DecidableEq, Repr

/-- Embedding of the emitted `__new__`/`__init__` pair: constructing from
the sentinel null handle yields no instance at all (`__new__` returns
`None`); constructing with no value yields an unbound instance; any other
raw handle yields an instance bound to it. -/
def wrapperNew (value : Option Nat) : Option Wrapper :=
  if value = some 0 then none else some ⟨value.getD 0⟩

/-- A Python-level value crossing the generated wrappers' boundary. -/
inductive PyVal where
  | int (n : Int)
  /-- a `str`; for decoded return values, the exact byte sequence the
  decoder was applied to (decoding itself is Python library behavior) -/
  | str (bs : List Nat)
  | bytes (bs : List Nat)
  /-- a wrapper instance of the named generated class -/
  | obj (typeName : String) (handle : Nat)
  /-- a Python list of wrapper instances, by their handles -/
  | list (handles : List Nat)
  | pynone
deriving DecidableEq, Repr

/-- The error message attached to a raised `LLVMException`. -/
inductive ErrMsg where
  /-- `ffi.string(error_str[0])`: the decoded message -/
  | decoded (bs : List Nat)
  /-- the fixed `"Error"` string -/
  | generic
deriving DecidableEq, Repr

/-- An exception escaping a generated wrapper invocation. -/
inductive PyExc where
  /-- `raise LLVMException(...)` from the boolean-error template -/
  | llvmError (msg : ErrMsg)
  /-- Python `NameError`: the body references `argN` but no such name is
  bound (only public parameters are) -/
  | nameErr (argIndex : Nat)
  /-- Python-level type failure (wrong kind of value for the slot) -/
  | typeErr
  /-- `RuntimeError` from `in_ptr` on an unbound or `out_ptr` on a bound
  wrapper -/
  | invalidHandle
deriving DecidableEq, Repr

/-- Embedding of the emitted `in_ptr`: requires a bound handle. -/
def inPtrOp (w : Wrapper) : Except PyExc Nat :=
  if w.handle = 0 then .error .invalidHandle else .ok w.handle

/-- Embedding of the emitted `out_ptr`: requires an unbound handle. -/
def outPtrOp (w : Wrapper) : Except PyExc Unit :=
  if w.handle ≠ 0 then .error .invalidHandle else .ok ()

/-- Embedding of the emitted `__hash__`: `hash(self.ptr[0])`, the
underlying address. -/
def pyHash (w : Wrapper) : Nat :=
  w.handle

/-- Embedding of the emitted `__eq__`: hash equality. -/
def wrapperEq (a b : Wrapper) : Bool :=
  pyHash a = pyHash b

/-- `ffi.string`: the bytes of a buffer up to (excluding) the first NUL. -/
def cStringOf (buf : List Nat) : List Nat :=
  buf.takeWhile (· ≠ 0)

/-- `ffi.unpack(ptr, len)`: exactly `len` bytes of the pointed-to memory,
embedded NULs included. -/
def readBytes (mem : Nat → Nat) (len : Nat) : List Nat :=
  (List.range len).map mem

/-- Python truthiness of the `encoding` argument (`None` or an empty
string skip decoding). -/
def encTruthy : Option String → Bool
  | none => false
  | some s => !s.data.isEmpty

/-- What one invocation of the underlying C function does, observed at the
boundary: the returned value (in each of the type shapes the strategies
distinguish) and the values written through the scratch out-slots the
templates allocate. -/
structure CCall where
  /-- the returned `int` for int-returning functions -/
  intResult : Int
  /-- the handle written through the single object-out slot -/
  outHandle : Nat
  /-- the NUL-terminated buffer left in the `char **` error slot -/
  errBytes : List Nat
  /-- the length written through the `unsigned *` length slot -/
  writtenLen : Nat
  /-- the memory at the returned `char *` (byte at each offset) -/
  retMem : Nat → Nat
  /-- the returned handle for pointer-to-object returns -/
  retHandle : Nat
  /-- the NUL-terminated buffer at the returned `char *` (default case) -/
  retCStr : List Nat
  /-- the returned value in the plain pass-through case -/
  retRaw : PyVal

/-- Evaluation of one emitted call-boundary expression, under the
environment of bound `argN` names.  A reference to an unbound name is a
`NameError`; `in_ptr`/`out_ptr` calls enforce the wrapper-state
invariants; `encode_string` asserts a `str`/`bytes` input.  The
C-level values produced are abstracted away (they are consumed by the
modelled `CCall`). -/
def evalArg (env : Nat → Option PyVal) : ArgExpr → Except PyExc Unit
  | .argRef i =>
    match env i with
    | none => .error (.nameErr i)
    | some _ => .ok ()
  | .lenOf i =>
    match env i with
    | none => .error (.nameErr i)
    | some (.list _) => .ok ()
    | some (.str _) => .ok ()
    | some (.bytes _) => .ok ()
    | some _ => .error .typeErr
  | .inPtr i =>
    match env i with
    | none => .error (.nameErr i)
    | some (.obj _ h) => if h = 0 then .error .invalidHandle else .ok ()
    | some _ => .error .typeErr
  | .encodeStr i =>
    match env i with
    | none => .error (.nameErr i)
    | some (.str _) => .ok ()
    | some (.bytes _) => .ok ()
    | some _ => .error .typeErr
  | .listOrOut i =>
    match env i with
    | none => .error (.nameErr i)
    | some (.list hs) => if hs.all (· ≠ 0) then .ok () else .error .invalidHandle
    | some (.obj _ h) => if h = 0 then .ok () else .error .invalidHandle
    | some _ => .error .typeErr
  | .resultOutPtr => .ok ()
  | .errorStr => .ok ()
  | .lengthBuffer => .ok ()

/-- Left-to-right evaluation of the emitted call's argument expressions,
stopping at the first exception (Python call-expression order). -/
def evalArgs (env : Nat → Option PyVal) : List ArgExpr → Except PyExc Unit
  | [] => .ok ()
  | a :: rest =>
    match evalArg env a with
    | .error e => .error e
    | .ok () => evalArgs env rest

/-- One invocation of a generated wrapper method: the semantics of the
emitted body template selected by the strategy.  For a class method the
emitted call starts with `self.in_ptr()`; then the call-boundary argument
expressions are evaluated left to right; then the underlying call (whose
observed behavior is `c`) determines the outcome per template:

* `boolError`: `result = T()` (or `None`), scratch `error_str` slot when
  flagged, `failure = call(...)`; non-zero raises `LLVMException` with the
  decoded message (if a slot exists) or `"Error"`; zero returns `result`,
  now holding whatever handle the call wrote.
* `stringLength`: fresh `length_buffer`, `ptr = call(...)`, read exactly
  the written-back length, decode per the `encoding` argument.
* `wrapObject`: `return T(call())` (an instance, or `None` for a null
  handle, via `__new__`).
* `cString`: `return ffi.string(call())`.
* `plainReturn`: `return call()`. -/
def runWrapper (g : Generated) (selfHandle : Nat) (env : Nat → Option PyVal)
    (enc : Option String) (c : CCall) : Except PyExc PyVal :=
  if g.isClassMethod && selfHandle = 0 then
    .error .invalidHandle
  else
    match evalArgs env g.callArgs with
    | .error e => .error e
    | .ok () =>
      match g.strategy with
      | .boolError _ resultTypeName hasErrMsg =>
        if c.intResult ≠ 0 then
          .error (.llvmError
            (if hasErrMsg then .decoded (cStringOf c.errBytes) else .generic))
        else
          .ok (match resultTypeName with
               | some tn => .obj tn c.outHandle
               | none => .pynone)
      | .stringLength _ =>
        let raw := readBytes c.retMem c.writtenLen
        .ok (if encTruthy enc then .str raw else .bytes raw)
      | .wrapObject tn =>
        .ok (match wrapperNew (some c.retHandle) with
             | some w => .obj tn w.handle
             | none => .pynone)
      | .cString =>
        .ok (.bytes (cStringOf c.retCStr))
      | .plainReturn =>
        .ok c.retRaw

/-- The retained positional parameters of the public signature, in
order. -/
def retainedArgIdxs (params : List (Option PubParam)) : List Nat :=
  params.filterMap (fun p =>
    match p with
    | some (.arg i) => some i
    | _ => none)

/-- The environment an actual invocation builds: the caller's positional
values bound, in order, to the retained `argN` parameters; every other
`argN` name is unbound. -/
def pairLookup : List (Nat × PyVal) → Nat → Option PyVal
  | [], _ => none
  | p :: rest, i => if p.1 = i then some p.2 else pairLookup rest i

def mkEnv (params : List (Option PubParam)) (vals : List PyVal) :
    Nat → Option PyVal :=
  fun i => pairLookup ((retainedArgIdxs params).zip vals) i

/-! ## Semantics of the synthesized iterator

The emitted generator function is

    def iter_xs(self):
        next = self.get_first_x()
        while next is not None:
            yield next
            next = next.get_next_x()

where the first/next methods return a wrapper instance or `None` for the
library's null handle (via `__new__`).  The underlying structure is
modelled by the handle returned by the first call and the handle-to-handle
advance function; the loop is embedded with fuel. -/

/-- The while-loop of the emitted generator: yield handles until the
sentinel `0` appears (or fuel runs out). -/
def iterLoop (nextOf : Nat → Nat) : Nat → Nat → List Nat
  | 0, _ => []
  | fuel + 1, cur => if cur = 0 then [] else cur :: iterLoop nextOf fuel (nextOf cur)

/-- One invocation of the emitted generator function: a fresh traversal
from the current first handle. -/
def iterSem (firstOf : Nat) (nextOf : Nat → Nat) (fuel : Nat) : List Nat :=
  iterLoop nextOf fuel firstOf

/-! ## Specification-side definitions

Independent re-statements of the spec's wording, to be compared with the
source embeddings above. -/

/-- Spec side, enum resolution: the `(public_name, value)` sequence of an
enumerator list, in source order — each value is the evaluated
initializer when present, else the running value, which starts at the
given seed and is the previous value plus one after every entry. -/
def resolveSeq : Int → List (String × Int) → List Enumerator →
    Option (List (String × Int))
  | _, _, [] => some []
  | value, ctx, e :: rest => do
    let v ←
      match e.value with
      | some expr => handleExpression ctx expr
      | none => some value
    let tail ← resolveSeq (v + 1) ((e.name, v) :: ctx.filter (fun p => p.1 ≠ e.name)) rest
    pure ((stripLLVM e.name, v) :: tail)

/-- The public name of the last entry carrying a given value. -/
def lastNameFor (l : List (String × Int)) (v : Int) : Option String :=
  match l with
  | [] => none
  | p :: rest =>
    match lastNameFor rest v with
    | some n => some n
    | none => if p.2 = v then some p.1 else none

/-- The value of the first entry carrying a given public name. -/
def firstValFor (l : List (String × Int)) (n : String) : Option Int :=
  match l with
  | [] => none
  | p :: rest => if p.1 = n then some p.2 else firstValFor rest n

/-- Spec side: the `(public_name, value)` sequence of a list with no
initializers — consecutive values from the seed. -/
def implicitSeq (value : Int) : List Enumerator → List (String × Int)
  | [] => []
  | e :: rest => (stripLLVM e.name, value) :: implicitSeq (value + 1) rest

/-- Spec side: an object-out argument (pointer to pointer to opaque LLVM
object). -/
def isObjOutArg : CType → Bool
  | .pointer (.pointer (.struct s)) => isLLVMType s
  | _ => false

/-- Spec side: an error-message argument (`char **`). -/
def isErrStrArg : CType → Bool
  | .pointer (.pointer (.primitive c)) => c = "char"
  | _ => false

/-- Spec side: indices of the object-out arguments of an effective
argument list. -/
def objOutIdxs (eff : List CType) : List Nat :=
  (eff.enum.filter (fun p => isObjOutArg p.2)).map (·.1)

/-- Spec side: indices of the `char **` arguments. -/
def errStrIdxs (eff : List CType) : List Nat :=
  (eff.enum.filter (fun p => isErrStrArg p.2)).map (·.1)

/-- Spec side: exactly one `char **` argument, in the last position. -/
def errStrLast (eff : List CType) : Bool :=
  (errStrIdxs eff).length = 1 && (errStrIdxs eff).getD 0 0 = eff.length - 1

/-- The effective (post-owner) argument list of a prototype. -/
def effArgsOf (proto : Prototype) (className : Option String) : List CType :=
  proto.args.drop (if className.isSome then 1 else 0)

/-- The `argN` index a call-boundary expression reads, if any. -/
def argExprRef : ArgExpr → Option Nat
  | .listOrOut i => some i
  | .argRef i => some i
  | .inPtr i => some i
  | .encodeStr i => some i
  | .lenOf i => some i
  | .resultOutPtr => none
  | .errorStr => none
  | .lengthBuffer => none

/-- All `argN` indices read by the emitted call expressions. -/
def argRefsOf (l : List ArgExpr) : List Nat :=
  l.filterMap argExprRef

/-! Concrete fixtures used to witness the universally quantified claims. -/

/-- A three-element linked structure: `1 → 2 → 3 → sentinel`. -/
def exNext3 : Nat → Nat :=
  fun h => if h = 1 then 2 else if h = 2 then 3 else 0

/-- `LLVMGetFirstFunction : (LLVMModuleRef) → LLVMValueRef`-style
prototype for the iterator witness. -/
def exIterProto : Prototype :=
  ⟨[.pointer (.struct "LLVMOpaqueModule")], .pointer (.struct "LLVMOpaqueFunction")⟩

/-- A class table carrying the matching `LLVMGetNextFunction`. -/
def exIterMembers : List (String × Prototype) :=
  [("LLVMGetNextFunction",
    ⟨[.pointer (.struct "LLVMOpaqueFunction")], .pointer (.struct "LLVMOpaqueFunction")⟩)]

def exIterClasses : List (String × List (String × Prototype)) :=
  [("LLVMOpaqueFunction", exIterMembers)]

/-- `LLVMGetDataLayoutStr`-style prototype for the string-plus-length
witness: returns `char *`, last argument `unsigned int *`. -/
def exStrLenProto : Prototype :=
  ⟨[.pointer (.struct "LLVMOpaqueOwner"), .pointer (.primitive "unsigned int")],
   .pointer (.primitive "char")⟩

/-- The generator's output on the string-plus-length witness prototype. -/
def exStrLenGen : Generated :=
  { methodName := "get_data_layout_str"
    isClassMethod := true
    publicParams := [some .encodingParam]
    callArgs := [.lengthBuffer]
    strategy := .stringLength "unsigned int"
    iter := none }

/-- A call writing back length 3 with the bytes `h`, NUL, `i` at the
returned pointer. -/
def exStrCall : CCall :=
  { intResult := 0
    outHandle := 0
    errBytes := []
    writtenLen := 3
    retMem := fun i => [104, 0, 105].getD i 0
    retHandle := 0
    retCStr := []
    retRaw := .pynone }

/-- `(OwnerRef, T**, unsigned int) -> int` prototype: the single
object-out argument is immediately followed by an `unsigned int`. -/
def exC10Proto : Prototype :=
  ⟨[.pointer (.struct "LLVMOpaqueOwner"), .pointer (.pointer (.struct "LLVMOpaqueT")),
    .primitive "unsigned int"], .primitive "int"⟩

/-- The generator's output on that prototype: both public parameters are
removed, yet the emitted call still references `arg0` via `len(arg0)`. -/
def exC10Gen : Generated :=
  { methodName := "create_ts"
    isClassMethod := true
    publicParams := [none, none]
    callArgs := [.resultOutPtr, .lenOf 0]
    strategy := .boolError (some 0) (some "T") false
    iter := none }

/-- A call whose status reports success (`0`). -/
def exOkCall : CCall :=
  { intResult := 0
    outHandle := 7
    errBytes := []
    writtenLen := 0
    retMem := fun _ => 0
    retHandle := 0
    retCStr := []
    retRaw := .pynone }

/-- `(OwnerRef, T**, char**) -> int` prototype: the canonical boolean-error
shape with both an object-out argument and a trailing error-message
argument. -/
def exC2Proto : Prototype :=
  ⟨[.pointer (.struct "LLVMOpaqueOwner"), .pointer (.pointer (.struct "LLVMOpaqueT")),
    .pointer (.pointer (.primitive "char"))], .primitive "int"⟩

/-- The generator's output on that prototype: both slots are scratch
allocations, the public signature is empty, and failure carries the
decoded message. -/
def exC2Gen : Generated :=
  { methodName := "create_t"
    isClassMethod := true
    publicParams := [none, none]
    callArgs := [.resultOutPtr, .errorStr]
    strategy := .boolError (some 0) (some "T") true
    iter := none }

/-- The generator's output on the iterator witness prototype. -/
def exIterGen : Generated :=
  { methodName := "get_first_function"
    isClassMethod := true
    publicParams := []
    callArgs := []
    strategy := .wrapObject "Function"
    iter := some { iterMethodName := "iter_functions"
                   firstMethodName := "get_first_function"
                   nextMethodName := "get_next" } }

/-! ## Theorems

Helper lemmas first, then one theorem per claim (with its witness or
counterexample where required). -/

/-- Whether a classification outcome is a success (no `assert False`). -/
def exOk {α : Type} : Except GenError α → Bool
  | .ok _ => true
  | .error _ => false

theorem argExprFor_isOk (i : Nat) (t : CType) :
    exOk (argExprFor i t) = supportedArg t := by
  cases t with
  | pointer p =>
    cases p with
    | pointer pp =>
      cases pp with
      | struct s =>
        by_cases h : isLLVMType s <;> simp [argExprFor, supportedArg, exOk, h]
      | primitive c =>
        by_cases h : c = "char" <;> simp [argExprFor, supportedArg, exOk, h]
      | _ => simp [argExprFor, supportedArg, exOk]
    | struct s =>
      by_cases h : isLLVMType s <;> simp [argExprFor, supportedArg, exOk, h]
    | primitive c =>
      by_cases h : c = "char" <;> simp [argExprFor, supportedArg, exOk, h]
    | _ => simp [argExprFor, supportedArg, exOk]
  | _ => simp [argExprFor, supportedArg, exOk]

theorem classifyList_isOk (l : List (Nat × CType)) :
    exOk (classifyList l) = l.all (fun p => supportedArg p.2) := by
  induction l with
  | nil => rfl
  | cons a rest ih =>
    rw [List.all_cons, ← ih, ← argExprFor_isOk a.1 a.2]
    cases ha : argExprFor a.1 a.2 <;>
      cases hr : classifyList rest <;>
        simp [classifyList, ha, hr, exOk]

theorem all_enumFrom_snd (l : List CType) (k : Nat) :
    (l.enumFrom k).all (fun p => supportedArg p.2) = l.all supportedArg := by
  induction l generalizing k with
  | nil => rfl
  | cons a rest ih => simp [List.enumFrom, List.all_cons, ih]

theorem classifyArgs_isOk (eff : List CType) :
    exOk (classifyArgs eff) = eff.all supportedArg := by
  rw [classifyArgs, classifyList_isOk, show eff.enum = eff.enumFrom 0 from rfl,
    all_enumFrom_snd]

/-- C9.  Unrecognized shapes are a hard error, never a silent skip or a
fallback binding: `create_function` succeeds exactly when every effective
argument's shape is one of the recognized patterns (the return-type
patterns are total — the classifier's default case accepts every return
shape — so only argument shapes can be unrecognized, and any one
unrecognized argument aborts generation with no `Generated` produced). -/
theorem shape_error_C9 (name : String) (proto : Prototype) (className : Option String)
    (classes : List (String × List (String × Prototype))) :
    exOk (createFunction name proto className classes) =
      (proto.args.drop (if className.isSome then 1 else 0)).all supportedArg := by
  rw [← classifyArgs_isOk]
  unfold createFunction
  cases hc : classifyArgs (proto.args.drop (if className.isSome then 1 else 0)) <;>
    simp [exOk, hc]

theorem dGet_dSet_same (d : EnumMap) (k : EKey) (v : EVal) :
    dGet (dSet d k v) k = some v := by
  induction d with
  | nil => simp [dSet, dGet]
  | cons p rest ih =>
    rcases p with ⟨k0, v0⟩
    by_cases h : k0 = k
    · simp [dSet, h, dGet]
    · simp [dSet, h, dGet, ih]

theorem dGet_dSet_other (d : EnumMap) (k k' : EKey) (v : EVal) (h : k' ≠ k) :
    dGet (dSet d k v) k' = dGet d k' := by
  induction d with
  | nil => simp [dSet, dGet, Ne.symm h]
  | cons p rest ih =>
    rcases p with ⟨k0, v0⟩
    by_cases hp : k0 = k
    · subst hp
      simp [dSet, dGet, Ne.symm h]
    · simp [dSet, hp, dGet, ih, h]

/-- C5.  The generated wrapper class template: `in_ptr` raises exactly on
an unbound handle, `out_ptr` raises exactly on a bound handle, and
constructing from the sentinel null handle yields no instance at all
(`__new__` returns `None` rather than an empty wrapper). -/
theorem wrapper_state_C5 :
    (∀ w : Wrapper, inPtrOp w = .error .invalidHandle ↔ w.handle = 0) ∧
    (∀ w : Wrapper, outPtrOp w = .error .invalidHandle ↔ w.handle ≠ 0) ∧
    wrapperNew (some 0) = none ∧
    (∀ w : Wrapper, inPtrOp w = .ok w.handle ↔ w.handle ≠ 0) := by
  refine ⟨fun w => ?_, fun w => ?_, rfl, fun w => ?_⟩ <;>
    by_cases h : w.handle = 0 <;> simp [inPtrOp, outPtrOp, h]

/-- C6.  The generated `__eq__`/`__hash__` pair: instances over equal
underlying addresses compare equal with identical hashes; instances over
distinct addresses never compare equal. -/
theorem wrapper_eq_hash_C6 (a b : Wrapper) :
    (a.handle = b.handle → wrapperEq a b = true ∧ pyHash a = pyHash b) ∧
    (a.handle ≠ b.handle → wrapperEq a b = false) := by
  constructor
  · intro h
    simp [wrapperEq, pyHash, h]
  · intro h
    simp [wrapperEq, pyHash, h]

theorem wrapper_eq_hash_C6_witness :
    (wrapperEq ⟨5⟩ ⟨5⟩ = true ∧ pyHash ⟨5⟩ = pyHash ⟨5⟩) ∧ wrapperEq ⟨5⟩ ⟨7⟩ = false :=
  ⟨(wrapper_eq_hash_C6 ⟨5⟩ ⟨5⟩).1 rfl, (wrapper_eq_hash_C6 ⟨5⟩ ⟨7⟩).2 (by decide)⟩

/-- C8, counterexample.  Normalization is not idempotent: normalizing
`"GetValueName"` against owner `"Value"` does yield `"get_name"`, but
normalizing `"get_name"` against `"Value"` again yields `"et_name"` —
`to_python_case` unconditionally drops the first character of its result,
assuming an inserted leading separator that lower-case input never has. -/
theorem normalize_idem_C8_cex :
    normalizeName (some "Value") (normalizeName (some "Value") "GetValueName") ≠
      normalizeName (some "Value") "GetValueName" := by decide

/-- C8 (amended).  Normalizing `"GetValueName"` against owner `"Value"`
yields `"get_name"`, but normalization is not idempotent on such inputs:
re-normalizing `"get_name"` against `"Value"` yields `"et_name"` (the
case converter drops the first character of already-lower-case input), so
`normalize(owner, normalize(owner, x)) ≠ normalize(owner, x)` here. -/
theorem normalize_C8_amended :
    normalizeName (some "Value") "GetValueName" = "get_name" ∧
    normalizeName (some "Value") "get_name" = "et_name" := by decide

theorem dGet_int_step (mapping : EnumMap) (v : Int) (nm : String) (w : Int) :
    dGet (if !dHas (dSet mapping (.int v) (.str nm)) (.str nm) then
            dSet (dSet mapping (.int v) (.str nm)) (.str nm) (.int v)
          else dSet mapping (.int v) (.str nm)) (.int w) =
      if v = w then some (.str nm) else dGet mapping (.int w) := by
  have hx : dGet (if !dHas (dSet mapping (.int v) (.str nm)) (.str nm) then
            dSet (dSet mapping (.int v) (.str nm)) (.str nm) (.int v)
          else dSet mapping (.int v) (.str nm)) (.int w) =
      dGet (dSet mapping (.int v) (.str nm)) (.int w) := by
    split
    · exact dGet_dSet_other _ _ _ _ (by simp)
    · rfl
  rw [hx]
  by_cases hv : v = w
  · subst hv
    simp [dGet_dSet_same]
  · rw [dGet_dSet_other _ _ _ _ (by simp [Ne.symm hv])]
    simp [hv]

theorem dGet_str_step (mapping : EnumMap) (v : Int) (nm : String) (q : String) :
    dGet (if !dHas (dSet mapping (.int v) (.str nm)) (.str nm) then
            dSet (dSet mapping (.int v) (.str nm)) (.str nm) (.int v)
          else dSet mapping (.int v) (.str nm)) (.str q) =
      if q = nm then
        (if dHas mapping (.str nm) then dGet mapping (.str nm) else some (.int v))
      else dGet mapping (.str q) := by
  have hstep : dHas (dSet mapping (.int v) (.str nm)) (.str nm) = dHas mapping (.str nm) := by
    simp [dHas, dGet_dSet_other _ _ _ _ (by simp : (EKey.str nm) ≠ EKey.int v)]
  by_cases hq : q = nm
  · subst hq
    by_cases hb : dHas mapping (.str q) <;>
      simp [hstep, hb, dGet_dSet_same,
        dGet_dSet_other _ _ _ _ (by simp : (EKey.str q) ≠ EKey.int v)]
  · by_cases hb : dHas mapping (.str nm) <;>
      simp [hstep, hb, hq, dGet_dSet_other _ _ _ _ (by simp : (EKey.str q) ≠ EKey.int v),
        dGet_dSet_other _ _ _ _ (by simp [hq] : (EKey.str q) ≠ EKey.str nm)]

theorem dHas_str_step (mapping : EnumMap) (v : Int) (nm : String) (q : String) :
    dHas (if !dHas (dSet mapping (.int v) (.str nm)) (.str nm) then
            dSet (dSet mapping (.int v) (.str nm)) (.str nm) (.int v)
          else dSet mapping (.int v) (.str nm)) (.str q) =
      (decide (q = nm) || dHas mapping (.str q)) := by
  rw [show dHas (if !dHas (dSet mapping (.int v) (.str nm)) (.str nm) then
            dSet (dSet mapping (.int v) (.str nm)) (.str nm) (.int v)
          else dSet mapping (.int v) (.str nm)) (.str q) =
      (dGet (if !dHas (dSet mapping (.int v) (.str nm)) (.str nm) then
            dSet (dSet mapping (.int v) (.str nm)) (.str nm) (.int v)
          else dSet mapping (.int v) (.str nm)) (.str q)).isSome from rfl]
  rw [dGet_str_step]
  by_cases hq : q = nm
  · subst hq
    by_cases hb : dHas mapping (.str q) <;> simp [hb, dHas] at hb ⊢ <;> simp [hb]
  · simp [hq, dHas]

/-- The effect of one enumerator entry (public name `nm`, resolved value
`v`) on the characterization of the final dict. -/
theorem char_step (mapping : EnumMap) (v : Int) (nm : String) (m : EnumMap)
    (ltail : List (String × Int))
    (hint : ∀ w : Int, dGet m (.int w) =
      match lastNameFor ltail w with
      | some n => some (.str n)
      | none =>
        dGet (if !dHas (dSet mapping (.int v) (.str nm)) (.str nm) then
                dSet (dSet mapping (.int v) (.str nm)) (.str nm) (.int v)
              else dSet mapping (.int v) (.str nm)) (.int w))
    (hstr : ∀ q : String, dGet m (.str q) =
      if dHas (if !dHas (dSet mapping (.int v) (.str nm)) (.str nm) then
                dSet (dSet mapping (.int v) (.str nm)) (.str nm) (.int v)
              else dSet mapping (.int v) (.str nm)) (.str q) then
        dGet (if !dHas (dSet mapping (.int v) (.str nm)) (.str nm) then
                dSet (dSet mapping (.int v) (.str nm)) (.str nm) (.int v)
              else dSet mapping (.int v) (.str nm)) (.str q)
      else (firstValFor ltail q).map EVal.int) :
    (∀ w : Int, dGet m (.int w) =
      match lastNameFor ((nm, v) :: ltail) w with
      | some n => some (.str n)
      | none => dGet mapping (.int w)) ∧
    (∀ q : String, dGet m (.str q) =
      if dHas mapping (.str q) then dGet mapping (.str q)
      else (firstValFor ((nm, v) :: ltail) q).map EVal.int) := by
  constructor
  · intro w
    rw [hint w, dGet_int_step]
    cases hlast : lastNameFor ltail w with
    | some n => simp [lastNameFor, hlast]
    | none =>
      simp only [lastNameFor, hlast]
      by_cases hw : v = w <;> simp [hw]
  · intro q
    rw [hstr q, dHas_str_step, dGet_str_step]
    by_cases hq : q = nm
    · subst hq
      by_cases hb : dHas mapping (.str q) <;> simp [hb, firstValFor]
    · simp [hq, Ne.symm hq, firstValFor]

/-- The combined dict built by `visit_EnumeratorList`, characterized
against the specification-side resolved sequence: the `int` direction
holds, for each value, the public name of the LAST enumerator resolving
to it; the `str` direction holds, for each public name, the value of its
FIRST occurrence (entries of the starting `mapping` shadowing/falling
back as appropriate). -/
theorem processList_char :
    ∀ (enums : List Enumerator) (value : Int) (mapping : EnumMap)
      (ctx : List (String × Int)) (m : EnumMap),
      processList value mapping ctx enums = some m →
      ∃ l, resolveSeq value ctx enums = some l ∧
        (∀ w : Int, dGet m (.int w) =
          match lastNameFor l w with
          | some n => some (.str n)
          | none => dGet mapping (.int w)) ∧
        (∀ q : String, dGet m (.str q) =
          if dHas mapping (.str q) then dGet mapping (.str q)
          else (firstValFor l q).map EVal.int) := by
  intro enums
  induction enums with
  | nil =>
    intro value mapping ctx m hm
    simp only [processList, Option.some.injEq] at hm
    subst hm
    refine ⟨[], rfl, fun w => rfl, fun q => ?_⟩
    by_cases hq : dHas mapping (.str q)
    · simp [hq]
    · have : dGet mapping (.str q) = none := by
        simpa [dHas, Option.isSome_iff_ne_none] using hq
      simp [hq, this, firstValFor]
  | cons e rest ih =>
    intro value mapping ctx m hm
    cases he : e.value with
    | some expr =>
      cases hv : handleExpression ctx expr with
      | none => simp [processList, he, hv] at hm
      | some v =>
        simp only [processList, he, hv, Option.bind_eq_bind, Option.some_bind, ne_eq,
          decide_not] at hm
        obtain ⟨ltail, hlt, hint, hstr⟩ := ih _ _ _ _ hm
        obtain ⟨hi, hs⟩ := char_step _ _ _ _ _ hint hstr
        exact ⟨(stripLLVM e.name, v) :: ltail, by simp [resolveSeq, he, hv, hlt], hi, hs⟩
    | none =>
      simp only [processList, he, Option.bind_eq_bind, Option.some_bind, ne_eq,
        decide_not] at hm
      obtain ⟨ltail, hlt, hint, hstr⟩ := ih _ _ _ _ hm
      obtain ⟨hi, hs⟩ := char_step _ _ _ _ _ hint hstr
      exact ⟨(stripLLVM e.name, value) :: ltail, by simp [resolveSeq, he, hlt], hi, hs⟩

/-- C1, counterexample.  In the enumerator list `LLVMA = 1, LLVMB = 1`
the alias `B` overwrites the value-to-name entry for `1` (`mapping[value]
= name` is unconditional in the source): the produced mapping sends `1`
to `"B"`, not to the first-seen name `"A"` as the claim states. -/
theorem enum_alias_C1_cex :
    processEnumList [⟨"LLVMA", some (.const 1)⟩, ⟨"LLVMB", some (.const 1)⟩] =
      some [(.int 1, .str "B"), (.str "A", .int 1), (.str "B", .int 1)] ∧
    dGet [(.int 1, .str "B"), (.str "A", .int 1), (.str "B", .int 1)] (.int 1) ≠
      some (.str "A") := by decide

/-- C1 (amended).  For every enumerated list processed by the enum
resolver, the value-to-name direction keeps the LAST-seen public name for
each value (later aliases overwrite earlier ones), and the name-to-value
direction records, for each distinct public name, the value of its FIRST
occurrence. -/
theorem enum_alias_C1_amended (enums : List Enumerator) (m : EnumMap)
    (l : List (String × Int))
    (hm : processEnumList enums = some m)
    (hl : resolveSeq 0 [] enums = some l) :
    (∀ v : Int, dGet m (.int v) = (lastNameFor l v).map EVal.str) ∧
    (∀ n : String, dGet m (.str n) = (firstValFor l n).map EVal.int) := by
  obtain ⟨l2, hl2, hint, hstr⟩ := processList_char enums 0 [] [] m hm
  rw [hl] at hl2
  obtain rfl : l = l2 := Option.some.inj hl2
  constructor
  · intro v
    rw [hint v]
    cases lastNameFor l v <;> simp [dGet]
  · intro n
    rw [hstr n]
    simp [dHas, dGet]

theorem enum_alias_C1_amended_witness :
    dGet [(EKey.int 1, EVal.str "B"), (EKey.str "A", EVal.int 1), (EKey.str "B", EVal.int 1)]
        (EKey.int 1) = (lastNameFor [("A", 1), ("B", 1)] 1).map EVal.str ∧
    dGet [(EKey.int 1, EVal.str "B"), (EKey.str "A", EVal.int 1), (EKey.str "B", EVal.int 1)]
        (EKey.str "A") = (firstValFor [("A", 1), ("B", 1)] "A").map EVal.int :=
  ⟨(enum_alias_C1_amended [⟨"LLVMA", some (.const 1)⟩, ⟨"LLVMB", some (.const 1)⟩]
      [(EKey.int 1, EVal.str "B"), (EKey.str "A", EVal.int 1), (EKey.str "B", EVal.int 1)]
      [("A", 1), ("B", 1)] (by decide) (by decide)).1 1,
   (enum_alias_C1_amended [⟨"LLVMA", some (.const 1)⟩, ⟨"LLVMB", some (.const 1)⟩]
      [(EKey.int 1, EVal.str "B"), (EKey.str "A", EVal.int 1), (EKey.str "B", EVal.int 1)]
      [("A", 1), ("B", 1)] (by decide) (by decide)).2 "A"⟩

theorem resolveSeq_implicit :
    ∀ (enums : List Enumerator) (value : Int) (ctx : List (String × Int)),
      (∀ e ∈ enums, e.value = none) →
      resolveSeq value ctx enums = some (implicitSeq value enums) := by
  intro enums
  induction enums with
  | nil => intro value ctx _; rfl
  | cons e rest ih =>
    intro value ctx h
    have he : e.value = none := h e (by simp)
    have ht := ih (value + 1) ((e.name, value) :: ctx.filter (fun p => p.1 ≠ e.name))
      (fun x hx => h x (List.mem_cons_of_mem _ hx))
    simp only [ne_eq, decide_not] at ht
    simp [resolveSeq, he, implicitSeq, ht]

theorem lastNameFor_implicit_lt :
    ∀ (enums : List Enumerator) (value : Int) (w : Int), w < value →
      lastNameFor (implicitSeq value enums) w = none := by
  intro enums
  induction enums with
  | nil => intro value w _; rfl
  | cons e rest ih =>
    intro value w hw
    have ht := ih (value + 1) w (by omega)
    have hne : ¬value = w := by omega
    simp [implicitSeq, lastNameFor, ht, hne]

theorem lastNameFor_implicit :
    ∀ (enums : List Enumerator) (value : Int) (i : Nat), i < enums.length →
      lastNameFor (implicitSeq value enums) (value + i) =
        some (stripLLVM ((enums.getD i ⟨"", none⟩).name)) := by
  intro enums
  induction enums with
  | nil => intro value i h; simp at h
  | cons e rest ih =>
    intro value i h
    cases i with
    | zero =>
      have ht := lastNameFor_implicit_lt rest (value + 1) value (by omega)
      simp [implicitSeq, lastNameFor, ht]
    | succ j =>
      have ht := ih (value + 1) j (by simpa using h)
      have harith : value + ((j : Int) + 1) = (value + 1) + (j : Int) := by omega
      simp only [implicitSeq, lastNameFor, Nat.cast_succ, harith, ht]
      simp

/-- C7.  Enumerator value resolution: the claim's own example
`A = 1, B = A << 2, C = B | 1` resolves to `A=1, B=4, C=5` with correct
reverse lookups (exercising literals, sibling identifiers, `<<` and `|`);
and for every enumerator list with no initializers, the running value
starts at 0 at the beginning of the list and increments by 1 after each
entry, so the `i`-th enumerator's public name is recorded at value `i`. -/
theorem enum_values_C7 :
    (processEnumList [⟨"LLVMA", some (.const 1)⟩,
        ⟨"LLVMB", some (.binOp "<<" (.ident "LLVMA") (.const 2))⟩,
        ⟨"LLVMC", some (.binOp "|" (.ident "LLVMB") (.const 1))⟩] =
      some [(.int 1, .str "A"), (.str "A", .int 1), (.int 4, .str "B"),
            (.str "B", .int 4), (.int 5, .str "C"), (.str "C", .int 5)]) ∧
    (∀ (enums : List Enumerator) (m : EnumMap),
      (∀ e ∈ enums, e.value = none) → processEnumList enums = some m →
      ∀ i : Nat, i < enums.length →
        dGet m (.int (i : Int)) =
          some (.str (stripLLVM ((enums.getD i ⟨"", none⟩).name)))) := by
  constructor
  · decide
  · intro enums m hall hm i hi
    obtain ⟨l, hl, hint, _⟩ := processList_char enums 0 [] [] m hm
    rw [resolveSeq_implicit enums 0 [] hall] at hl
    obtain rfl : l = implicitSeq 0 enums := (Option.some.inj hl).symm
    rw [hint (i : Int)]
    have hlast := lastNameFor_implicit enums 0 i hi
    rw [zero_add] at hlast
    simp [hlast]

theorem enum_values_C7_witness :
    dGet [(EKey.int 0, EVal.str "X"), (EKey.str "X", EVal.int 0),
          (EKey.int 1, EVal.str "Y"), (EKey.str "Y", EVal.int 1),
          (EKey.int 2, EVal.str "Z"), (EKey.str "Z", EVal.int 2)]
        (EKey.int 2) = some (EVal.str "Z") := by
  have h := enum_values_C7.2 [⟨"LLVMX", none⟩, ⟨"LLVMY", none⟩, ⟨"LLVMZ", none⟩]
    [(EKey.int 0, EVal.str "X"), (EKey.str "X", EVal.int 0),
     (EKey.int 1, EVal.str "Y"), (EKey.str "Y", EVal.int 1),
     (EKey.int 2, EVal.str "Z"), (EKey.str "Z", EVal.int 2)]
    (by decide) (by decide) 2 (by decide)
  simpa using h

end LLVMCPy

namespace LLVMCPy

theorem iterLoop_eq (nextOf : Nat → Nat) :
    ∀ (m : Nat) (first : Nat) (fuel : Nat),
      nextOf^[m] first = 0 → (∀ j, j < m → nextOf^[j] first ≠ 0) → m ≤ fuel →
      iterLoop nextOf fuel first = (List.range m).map (fun j => nextOf^[j] first) := by
  intro m
  induction m with
  | zero =>
    intro first fuel h0 _ _
    simp only [Function.iterate_zero, id] at h0
    cases fuel <;> simp [iterLoop, h0]
  | succ k ih =>
    intro first fuel h0 hmin hf
    have hfirst : first ≠ 0 := by simpa using hmin 0 (Nat.succ_pos k)
    obtain ⟨f, rfl⟩ : ∃ f, fuel = f + 1 := ⟨fuel - 1, by omega⟩
    have hrec := ih (nextOf first) f
      (by rw [← Function.iterate_succ_apply]; exact h0)
      (fun j hj => by
        rw [← Function.iterate_succ_apply]
        exact hmin (j + 1) (by omega))
      (by omega)
    simp only [iterLoop, if_neg hfirst]
    rw [hrec, List.range_succ_eq_map, List.map_cons, List.map_map]
    have hfun : ((fun j => nextOf^[j] first) ∘ Nat.succ) =
        (fun j => nextOf^[j] (nextOf first)) := by
      funext j
      simp [Function.comp, Function.iterate_succ_apply]
    rw [hfun]
    rfl

end LLVMCPy

namespace LLVMCPy

/-- C4.  For every instance method named `LLVMGetFirst...` taking only
the owner argument and returning a pointer to an opaque LLVM type, if
that type's class table has a matching `LLVMGetNext...` method whose
single argument type and return type both equal the same pointer type,
`create_function` synthesizes the iterator helper; and the emitted
generator function yields exactly the sequence of non-sentinel handles
obtained from the first handle by repeated advancing until the sentinel,
in order — each invocation of the (pure) loop semantics being a fresh
traversal from the first element. -/
theorem iterator_C4
    (name : String) (proto : Prototype) (cls s : String)
    (classes : List (String × List (String × Prototype)))
    (members : List (String × Prototype)) (g : Generated)
    (h1 : createFunction name proto (some cls) classes = .ok g)
    (h2 : strStarts name "LLVMGetFirst" = true)
    (h3 : proto.args.length = 1)
    (h4 : proto.result = .pointer (.struct s))
    (h5 : isLLVMType s = true)
    (h6 : classes.lookup s = some members)
    (h7 : (members.find? (fun m =>
        m.1 = "LLVMGetNext" ++ strDrop name 12 &&
        m.2.args = [proto.result] && m.2.result = proto.result)).isSome = true) :
    g.iter.isSome = true ∧
    (∀ (firstH : Nat) (nextOf : Nat → Nat) (m : Nat) (fuel : Nat),
      nextOf^[m] firstH = 0 → (∀ j, j < m → nextOf^[j] firstH ≠ 0) → m ≤ fuel →
      iterSem firstH nextOf fuel = (List.range m).map (fun j => nextOf^[j] firstH)) := by
  constructor
  · obtain ⟨nxt, hnxt⟩ := Option.isSome_iff_exists.mp h7
    rw [h4] at hnxt
    cases hc : classifyArgs proto.args.tail with
    | error e => simp [createFunction, hc] at h1
    | ok cl =>
      simp only [createFunction, Option.isSome_some, if_true, List.drop_one, hc,
        Except.ok.injEq] at h1
      subst h1
      simp [h2, h3, h4, h5, h6, hnxt]
  · intro firstH nextOf m fuel h0 hmin hf
    exact iterLoop_eq nextOf m firstH fuel h0 hmin hf

end LLVMCPy

namespace LLVMCPy

theorem iterator_C4_witness :
    exIterGen.iter.isSome = true ∧
    iterSem 1 exNext3 3 = [1, 2, 3] ∧ iterSem 1 exNext3 7 = [1, 2, 3] := by
  obtain ⟨hsome, hiter⟩ := iterator_C4 "LLVMGetFirstFunction" exIterProto "Module"
    "LLVMOpaqueFunction" exIterClasses exIterMembers exIterGen rfl (by decide) rfl rfl
    (by decide) rfl (by decide)
  exact ⟨hsome,
    (hiter 1 exNext3 3 3 (by decide) (by decide) (by decide)).trans (by decide),
    (hiter 1 exNext3 3 7 (by decide) (by decide) (by decide)).trans (by decide)⟩

end LLVMCPy

namespace LLVMCPy

theorem classifyList_length :
    ∀ (l : List (Nat × CType)) (cl : List (ArgExpr × Bool × Bool)),
      classifyList l = .ok cl → cl.length = l.length := by
  intro l
  induction l with
  | nil =>
    intro cl h
    simp only [classifyList, Except.ok.injEq] at h
    simp [← h]
  | cons a rest ih =>
    intro cl h
    cases ha : argExprFor a.1 a.2 with
    | error e => simp [classifyList, ha] at h
    | ok x =>
      cases hr : classifyList rest with
      | error e => simp [classifyList, ha, hr] at h
      | ok xs =>
        simp only [classifyList, ha, hr, Except.ok.injEq] at h
        simp [← h, ih xs hr]

theorem classifyList_getD :
    ∀ (l : List (Nat × CType)) (cl : List (ArgExpr × Bool × Bool)),
      classifyList l = .ok cl →
      ∀ j, j < l.length →
        argExprFor (l.getD j (0, .void)).1 (l.getD j (0, .void)).2 =
          .ok (cl.getD j default) := by
  intro l
  induction l with
  | nil => intro cl _ j hj; simp at hj
  | cons a rest ih =>
    intro cl h j hj
    cases ha : argExprFor a.1 a.2 with
    | error e => simp [classifyList, ha] at h
    | ok x =>
      cases hr : classifyList rest with
      | error e => simp [classifyList, ha, hr] at h
      | ok xs =>
        simp only [classifyList, ha, hr, Except.ok.injEq] at h
        subst h
        cases j with
        | zero => simpa using ha
        | succ k => simpa using ih xs hr k (by simpa using hj)

theorem argExprFor_ok_flags (i : Nat) (t : CType) (x : ArgExpr × Bool × Bool)
    (h : argExprFor i t = .ok x) :
    x.2.1 = isObjOutArg t ∧ x.2.2 = isErrStrArg t ∧ argExprRef x.1 = some i := by
  cases t with
  | pointer p =>
    cases p with
    | pointer pp =>
      cases pp with
      | struct s =>
        by_cases hs : isLLVMType s
        · simp [argExprFor, hs] at h
          simp [← h, isObjOutArg, isErrStrArg, argExprRef, hs]
        · simp [argExprFor, hs] at h
      | primitive c =>
        by_cases hc : c = "char"
        · simp [argExprFor, hc] at h
          simp [← h, isObjOutArg, isErrStrArg, argExprRef, hc]
        · simp [argExprFor, hc] at h
      | _ => simp [argExprFor] at h
    | struct s =>
      by_cases hs : isLLVMType s
      · simp [argExprFor, hs] at h
        simp [← h, isObjOutArg, isErrStrArg, argExprRef]
      · simp [argExprFor, hs] at h
    | primitive c =>
      by_cases hc : c = "char" <;>
        simp [argExprFor, hc] at h <;>
        simp [← h, isObjOutArg, isErrStrArg, argExprRef]
    | void =>
      simp only [argExprFor] at h
      injection h with h2
      subst h2
      simp [isObjOutArg, isErrStrArg, argExprRef]
    | enum c => exact absurd h (by simp [argExprFor])
    | function => exact absurd h (by simp [argExprFor])
  | struct s => exact absurd h (by simp [argExprFor])
  | void => exact absurd h (by simp [argExprFor])
  | primitive c =>
    simp only [argExprFor] at h
    injection h with h2
    subst h2
    simp [isObjOutArg, isErrStrArg, argExprRef]
  | enum c =>
    simp only [argExprFor] at h
    injection h with h2
    subst h2
    simp [isObjOutArg, isErrStrArg, argExprRef]
  | function =>
    simp only [argExprFor] at h
    injection h with h2
    subst h2
    simp [isObjOutArg, isErrStrArg, argExprRef]

end LLVMCPy

namespace LLVMCPy

theorem filter_idxs_eq (f : (ArgExpr × Bool × Bool) → Bool) (p : CType → Bool) :
    ∀ (cl : List (ArgExpr × Bool × Bool)) (eff : List CType) (k : Nat),
      cl.length = eff.length →
      (∀ j, j < eff.length → f (cl.getD j default) = p (eff.getD j .void)) →
      ((cl.enumFrom k).filter (fun q => f q.2)).map (·.1) =
        ((eff.enumFrom k).filter (fun q => p q.2)).map (·.1) := by
  intro cl
  induction cl with
  | nil =>
    intro eff k hlen _
    cases eff with
    | nil => rfl
    | cons t eff2 => simp at hlen
  | cons x cl2 ih =>
    intro eff k hlen hpt
    cases eff with
    | nil => simp at hlen
    | cons t eff2 =>
      have h0 : f x = p t := by simpa using hpt 0 (by simp)
      have hrest := ih eff2 (k + 1) (by simpa using hlen)
        (fun j hj => by simpa using hpt (j + 1) (by simpa using hj))
      have h0' : p t = f x := h0.symm
      simp only [List.enumFrom, List.filter_cons]
      cases hft : f x <;> simp [hft, h0', hrest]

theorem mem_idxs_bound (p : CType → Bool) :
    ∀ (eff : List CType) (k j : Nat),
      j ∈ ((eff.enumFrom k).filter (fun q => p q.2)).map (·.1) →
      k ≤ j ∧ j - k < eff.length ∧ p (eff.getD (j - k) .void) = true := by
  intro eff
  induction eff with
  | nil => intro k j h; simp at h
  | cons t eff2 ih =>
    intro k j h
    simp only [List.enumFrom, List.filter_cons] at h
    by_cases hp : p t = true
    · rw [if_pos (by simpa using hp)] at h
      simp only [List.map_cons, List.mem_cons] at h
      rcases h with rfl | h
      · exact ⟨Nat.le_refl _, by simp, by simpa using hp⟩
      · obtain ⟨h1, h2, h3⟩ := ih (k + 1) j h
        have hjk : j - k = (j - (k + 1)) + 1 := by omega
        refine ⟨by omega, by rw [hjk]; simp only [List.length_cons]; omega, ?_⟩
        rw [hjk]
        simpa using h3
    · rw [if_neg (by simpa using hp)] at h
      obtain ⟨h1, h2, h3⟩ := ih (k + 1) j h
      have hjk : j - k = (j - (k + 1)) + 1 := by omega
      refine ⟨by omega, by rw [hjk]; simp only [List.length_cons]; omega, ?_⟩
      rw [hjk]
      simpa using h3

theorem mem_objOutIdxs_bound (eff : List CType) (j : Nat) (h : j ∈ objOutIdxs eff) :
    j < eff.length ∧ isObjOutArg (eff.getD j .void) = true := by
  have hx := mem_idxs_bound isObjOutArg eff 0 j (by simpa [objOutIdxs, List.enum] using h)
  simpa using hx

theorem mem_errStrIdxs_bound (eff : List CType) (j : Nat) (h : j ∈ errStrIdxs eff) :
    j < eff.length ∧ isErrStrArg (eff.getD j .void) = true := by
  have hx := mem_idxs_bound isErrStrArg eff 0 j (by simpa [errStrIdxs, List.enum] using h)
  simpa using hx

end LLVMCPy

namespace LLVMCPy

theorem enum_getD (eff : List CType) (j : Nat) (hj : j < eff.length) :
    eff.enum.getD j (0, .void) = (j, eff.getD j .void) := by
  have h1 := List.getElem?_enumFrom 0 eff j
  simp only [List.getD_eq_getElem?_getD, List.enum, h1, List.getElem?_eq_getElem hj]
  simp

/-- The classification loop's output characterized against the
specification-side shape predicates: lengths agree, the tracked
`out_args` / `out_strings` index lists are exactly the object-out /
`char **` positions of the effective argument list, and the emitted
expression for position `j` reads `argj`. -/
theorem classifyArgs_corr (eff : List CType) (cl : List (ArgExpr × Bool × Bool))
    (h : classifyArgs eff = .ok cl) :
    cl.length = eff.length ∧
    outIdxsOf cl = objOutIdxs eff ∧
    strIdxsOf cl = errStrIdxs eff ∧
    (∀ j, j < eff.length → argExprRef (cl.getD j default).1 = some j) := by
  have hlen : cl.length = eff.length := by
    have hx := classifyList_length eff.enum cl h
    simpa using hx
  have hpt : ∀ j, j < eff.length →
      argExprFor j (eff.getD j .void) = .ok (cl.getD j default) := by
    intro j hj
    have hx := classifyList_getD eff.enum cl h j (by simpa using hj)
    rwa [enum_getD eff j hj] at hx
  refine ⟨hlen, ?_, ?_, ?_⟩
  · exact filter_idxs_eq (fun q => q.2.1) isObjOutArg cl eff 0 hlen
      (fun j hj => ((argExprFor_ok_flags j _ _ (hpt j hj)).1))
  · exact filter_idxs_eq (fun q => q.2.2) isErrStrArg cl eff 0 hlen
      (fun j hj => ((argExprFor_ok_flags j _ _ (hpt j hj)).2.1))
  · exact fun j hj => (argExprFor_ok_flags j _ _ (hpt j hj)).2.2

end LLVMCPy

namespace LLVMCPy

theorem adjacencyRewrite_length (eff : List CType) :
    ∀ (outArgs : List Nat) (st : List ArgExpr × List (Option PubParam)),
      (adjacencyRewrite eff outArgs st).1.length = st.1.length ∧
      (adjacencyRewrite eff outArgs st).2.length = st.2.length := by
  intro outArgs
  induction outArgs with
  | nil => intro st; exact ⟨rfl, rfl⟩
  | cons i rest ih =>
    intro st
    rw [adjacencyRewrite, List.foldl_cons]
    have hx := ih (if eff.getD (i + 1) .void = .primitive "unsigned int" then
      (st.1.set (i + 1) (.lenOf i), st.2.set (i + 1) none) else st)
    rw [adjacencyRewrite] at hx
    refine ⟨hx.1.trans ?_, hx.2.trans ?_⟩ <;> split <;> simp

theorem getLast?_set_last {α : Type} (l : List α) (a : α) (h : 0 < l.length) :
    (l.set (l.length - 1) a).getLast? = some a := by
  rw [List.getLast?_eq_getElem?, List.length_set]
  exact List.getElem?_set_self (by omega)

theorem evalArgs_ok_of_mem (env : Nat → Option PyVal) :
    ∀ (l : List ArgExpr), evalArgs env l = .ok () →
      ∀ a ∈ l, evalArg env a = .ok () := by
  intro l
  induction l with
  | nil => intro _ a ha; simp at ha
  | cons b rest ih =>
    intro h a ha
    cases hb : evalArg env b with
    | error e => simp [evalArgs, hb] at h
    | ok u =>
      cases u
      simp only [evalArgs, hb] at h
      rcases List.mem_cons.mp ha with rfl | ha2
      · exact hb
      · exact ih h a ha2

theorem runWrapper_ok_strategy (g : Generated) (selfH : Nat)
    (env : Nat → Option PyVal) (enc : Option String) (c : CCall)
    (hself : g.isClassMethod = true → selfH ≠ 0)
    (heval : evalArgs env g.callArgs = .ok ()) :
    runWrapper g selfH env enc c =
      match g.strategy with
      | .boolError _ resultTypeName hasErrMsg =>
        if c.intResult ≠ 0 then
          .error (.llvmError
            (if hasErrMsg then .decoded (cStringOf c.errBytes) else .generic))
        else
          .ok (match resultTypeName with
               | some tn => .obj tn c.outHandle
               | none => .pynone)
      | .stringLength _ =>
        .ok (if encTruthy enc then .str (readBytes c.retMem c.writtenLen)
             else .bytes (readBytes c.retMem c.writtenLen))
      | .wrapObject tn =>
        .ok (match wrapperNew (some c.retHandle) with
             | some w => .obj tn w.handle
             | none => .pynone)
      | .cString => .ok (.bytes (cStringOf c.retCStr))
      | .plainReturn => .ok c.retRaw := by
  cases hm : g.isClassMethod with
  | false => simp [runWrapper, hm, heval]
  | true => simp [runWrapper, hm, hself hm, heval]

theorem runWrapper_error_of_eval (g : Generated) (selfH : Nat)
    (env : Nat → Option PyVal) (enc : Option String) (c : CCall)
    (heval : ∀ u : Unit, evalArgs env g.callArgs ≠ .ok u) :
    ∃ ex, runWrapper g selfH env enc c = .error ex := by
  by_cases hcond : (g.isClassMethod && selfH = 0) = true
  · exact ⟨.invalidHandle, by simp [runWrapper, hcond]⟩
  · cases hev : evalArgs env g.callArgs with
    | error e =>
      refine ⟨e, ?_⟩
      simp only [runWrapper, hcond]
      simp [hev]
    | ok u => exact absurd hev (heval u)

theorem evalArgs_not_ok (env : Nat → Option PyVal) :
    ∀ (l : List ArgExpr) (a : ArgExpr), a ∈ l →
      (∀ u : Unit, evalArg env a ≠ .ok u) →
      ∀ u : Unit, evalArgs env l ≠ .ok u := by
  intro l
  induction l with
  | nil => intro a ha; simp at ha
  | cons b rest ih =>
    intro a ha hbad u h
    cases hb : evalArg env b with
    | error e => simp [evalArgs, hb] at h
    | ok v =>
      cases v
      simp only [evalArgs, hb] at h
      rcases List.mem_cons.mp ha with rfl | ha2
      · exact hbad () hb
      · exact ih a ha2 hbad () h

theorem pairLookup_none :
    ∀ (l : List (Nat × PyVal)) (i : Nat), (∀ p ∈ l, p.1 ≠ i) → pairLookup l i = none := by
  intro l
  induction l with
  | nil => intro i _; rfl
  | cons p rest ih =>
    intro i h
    simp only [pairLookup]
    rw [if_neg (h p (by simp)), ih i (fun q hq => h q (List.mem_cons_of_mem _ hq))]

theorem mkEnv_none (params : List (Option PubParam)) (vals : List PyVal) (i : Nat)
    (h : i ∉ retainedArgIdxs params) : mkEnv params vals i = none := by
  apply pairLookup_none
  intro p hp hpi
  exact h (by simpa [← hpi] using (List.of_mem_zip hp).1)

end LLVMCPy

namespace LLVMCPy

/-- C3.  For every function returning `char *` whose last effective
argument is a pointer to an unsigned integer, the generated wrapper
removes that last argument from the public signature (its slot becomes
the `encoding="utf-8"` keyword parameter), replaces it at the call
boundary with the internal length buffer, and returns exactly the bytes
of the written-back length: the raw byte list of that exact length
(embedded NULs included) under a falsy encoding, and the decoded string
of those same full bytes (no truncation at an embedded NUL) under a
truthy encoding such as the UTF-8 default. -/
theorem string_length_C3
    (name : String) (proto : Prototype) (className : Option String)
    (classes : List (String × List (String × Prototype))) (g : Generated) (u : String)
    (h1 : createFunction name proto className classes = .ok g)
    (hret : proto.result = .pointer (.primitive "char"))
    (hlast : (effArgsOf proto className).getLast? = some (.pointer (.primitive u)))
    (hu : u ∈ unsignedInts) :
    g.strategy = .stringLength u ∧
    g.publicParams.getLast? = some (some .encodingParam) ∧
    g.callArgs.getLast? = some .lengthBuffer ∧
    (∀ (selfH : Nat) (env : Nat → Option PyVal) (enc : Option String) (c : CCall),
      (g.isClassMethod = true → selfH ≠ 0) →
      evalArgs env g.callArgs = .ok () →
      runWrapper g selfH env enc c =
        .ok (if encTruthy enc then .str (readBytes c.retMem c.writtenLen)
             else .bytes (readBytes c.retMem c.writtenLen))) := by
  simp only [effArgsOf] at hlast
  have hne : 0 < (proto.args.drop (if className.isSome then 1 else 0)).length := by
    cases he : proto.args.drop (if className.isSome then 1 else 0) with
    | nil => rw [he] at hlast; simp at hlast
    | cons a rest => simp [he]
  cases hc : classifyArgs (proto.args.drop (if className.isSome then 1 else 0)) with
  | error e => simp [createFunction, hc] at h1
  | ok cl =>
    obtain ⟨hlen, _, _, _⟩ := classifyArgs_corr _ cl hc
    simp only [createFunction, hc, hret, hlast, hu, if_true, Except.ok.injEq] at h1
    subst h1
    refine ⟨rfl, ?_, ?_, ?_⟩
    · show (List.set _ _ _).getLast? = _
      have hl2 := (adjacencyRewrite_length (proto.args.drop (if className.isSome then 1 else 0))
        (outIdxsOf cl) ((cl.map (·.1)),
          (List.range (proto.args.drop (if className.isSome then 1 else 0)).length).map
            (fun i => some (.arg i)))).2
      simp only [List.length_map, List.length_range] at hl2
      rw [show (proto.args.drop (if className.isSome then 1 else 0)).length - 1 =
        (adjacencyRewrite (proto.args.drop (if className.isSome then 1 else 0))
          (outIdxsOf cl) ((cl.map (·.1)),
            (List.range (proto.args.drop (if className.isSome then 1 else 0)).length).map
              (fun i => some (.arg i)))).2.length - 1 from by rw [hl2]]
      exact getLast?_set_last _ _ (by rw [hl2]; exact hne)
    · show (List.set _ _ _).getLast? = _
      have hl1 := (adjacencyRewrite_length (proto.args.drop (if className.isSome then 1 else 0))
        (outIdxsOf cl) ((cl.map (·.1)),
          (List.range (proto.args.drop (if className.isSome then 1 else 0)).length).map
            (fun i => some (.arg i)))).1
      simp only [List.length_map, hlen] at hl1
      rw [show (proto.args.drop (if className.isSome then 1 else 0)).length - 1 =
        (adjacencyRewrite (proto.args.drop (if className.isSome then 1 else 0))
          (outIdxsOf cl) ((cl.map (·.1)),
            (List.range (proto.args.drop (if className.isSome then 1 else 0)).length).map
              (fun i => some (.arg i)))).1.length - 1 from by rw [hl1]]
      exact getLast?_set_last _ _ (by rw [hl1]; exact hne)
    · intro selfH env enc c hself heval
      rw [runWrapper_ok_strategy _ _ _ _ _ hself heval]
      rfl

end LLVMCPy

namespace LLVMCPy

theorem string_length_C3_witness :
    runWrapper exStrLenGen 5 (mkEnv exStrLenGen.publicParams []) none exStrCall =
      .ok (.bytes [104, 0, 105]) ∧
    runWrapper exStrLenGen 5 (mkEnv exStrLenGen.publicParams []) (some "utf-8") exStrCall =
      .ok (.str [104, 0, 105]) := by
  obtain ⟨_, _, _, hsem⟩ := string_length_C3 "LLVMGetDataLayoutStr" exStrLenProto
    (some "Owner") [] exStrLenGen "unsigned int" rfl rfl (by decide) (by decide)
  exact ⟨(hsem 5 _ none exStrCall (fun _ => by decide) rfl).trans rfl,
         (hsem 5 _ (some "utf-8") exStrCall (fun _ => by decide) rfl).trans rfl⟩

end LLVMCPy

namespace LLVMCPy

theorem params0_getElem (n j : Nat) :
    ((List.range n).map (fun k => some (PubParam.arg k)))[j]? =
      if j < n then some (some (.arg j)) else none := by
  by_cases hj : j < n
  · rw [List.getElem?_map, List.getElem?_range hj]
    simp [hj]
  · rw [List.getElem?_map, List.getElem?_eq_none (by simpa using hj)]
    simp [hj]

theorem not_mem_retained_of_set_none
    (P : List (Option PubParam)) (i : Nat)
    (hP : P[i]? = some none)
    (hother : ∀ j, j ≠ i → ∀ pp, P[j]? = some (some pp) → pp ≠ .arg i) :
    i ∉ retainedArgIdxs P := by
  intro hm
  obtain ⟨p, hp, hpi⟩ := List.mem_filterMap.mp hm
  have hpe : p = some (.arg i) := by
    cases p with
    | none => simp [retainedArgIdxs] at hpi
    | some pp =>
      cases pp with
      | arg j =>
        simp at hpi
        rw [hpi]
      | encodingParam => simp at hpi
  subst hpe
  obtain ⟨j, hj, hje⟩ := List.getElem_of_mem hp
  have hje2 : P[j]? = some (some (.arg i)) := by
    rw [List.getElem?_eq_getElem hj, hje]
  by_cases hji : j = i
  · rw [hji, hP] at hje2
    simp at hje2
  · exact hother j hji _ hje2 rfl

theorem not_obj_and_err (t : CType) : ¬(isObjOutArg t = true ∧ isErrStrArg t = true) := by
  rintro ⟨h1, h2⟩
  cases t with
  | pointer p =>
    cases p with
    | pointer q =>
      cases q with
      | struct s => exact absurd h2 (by simp [isErrStrArg])
      | primitive c => exact absurd h1 (by simp [isObjOutArg])
      | pointer r => exact absurd h1 (by simp [isObjOutArg])
      | enum c => exact absurd h1 (by simp [isObjOutArg])
      | function => exact absurd h1 (by simp [isObjOutArg])
      | void => exact absurd h1 (by simp [isObjOutArg])
    | struct s => exact absurd h1 (by simp [isObjOutArg])
    | primitive c => exact absurd h1 (by simp [isObjOutArg])
    | enum c => exact absurd h1 (by simp [isObjOutArg])
    | function => exact absurd h1 (by simp [isObjOutArg])
    | void => exact absurd h1 (by simp [isObjOutArg])
  | struct s => exact absurd h1 (by simp [isObjOutArg])
  | primitive c => exact absurd h1 (by simp [isObjOutArg])
  | enum c => exact absurd h1 (by simp [isObjOutArg])
  | function => exact absurd h1 (by simp [isObjOutArg])
  | void => exact absurd h1 (by simp [isObjOutArg])

/-- C10.  For every function with plain-`int` return whose single
object-out argument at index `i` is immediately followed by an
`unsigned int` argument, the generator applies both the length-adjacency
rewrite and the boolean-error rewrite to the same argument: argument `i`
is removed from the public signature, yet `len(argi)` is still emitted as
the call-boundary value for argument `i+1`, so the emitted body
references a name no invocation can bind and every invocation of the
wrapper fails. -/
theorem lenof_bug_C10
    (name : String) (proto : Prototype) (className : Option String)
    (classes : List (String × List (String × Prototype))) (g : Generated) (i : Nat)
    (h1 : createFunction name proto className classes = .ok g)
    (hret : proto.result = .primitive "int")
    (hout : objOutIdxs (effArgsOf proto className) = [i])
    (hadj : (effArgsOf proto className).getD (i + 1) .void = .primitive "unsigned int") :
    g.callArgs.getD (i + 1) default = .lenOf i ∧
    g.publicParams.getD i (some (.arg 0)) = none ∧
    (∀ vals : List PyVal, mkEnv g.publicParams vals i = none) ∧
    (∀ (vals : List PyVal) (selfH : Nat) (enc : Option String) (c : CCall),
      ∃ ex, runWrapper g selfH (mkEnv g.publicParams vals) enc c = .error ex) := by
  simp only [effArgsOf] at hout hadj
  have hi : i < (proto.args.drop (if className.isSome then 1 else 0)).length ∧
      isObjOutArg ((proto.args.drop (if className.isSome then 1 else 0)).getD i .void) = true :=
    mem_objOutIdxs_bound _ i (by rw [hout]; exact List.mem_singleton.mpr rfl)
  have hi2 : i + 1 < (proto.args.drop (if className.isSome then 1 else 0)).length := by
    by_contra hcon
    rw [List.getD_eq_getElem?_getD, List.getElem?_eq_none (by omega)] at hadj
    simp at hadj
  cases hc : classifyArgs (proto.args.drop (if className.isSome then 1 else 0)) with
  | error e => simp [createFunction, hc] at h1
  | ok cl =>
    obtain ⟨hlen, houtIdx, hstrIdx, href⟩ := classifyArgs_corr _ cl hc
    rw [hout] at houtIdx
    simp only [createFunction, hc, hret, houtIdx, List.length_singleton, Except.ok.injEq] at h1
    subst h1
    have hA : adjacencyRewrite (proto.args.drop (if className.isSome then 1 else 0)) [i]
        (cl.map (·.1),
         (List.range (proto.args.drop (if className.isSome then 1 else 0)).length).map
           (fun k => some (.arg k))) =
        ((cl.map (·.1)).set (i + 1) (.lenOf i),
         ((List.range (proto.args.drop (if className.isSome then 1 else 0)).length).map
           (fun k => some (.arg k))).set (i + 1) none) := by
      rw [adjacencyRewrite]
      simp only [List.foldl_cons, List.foldl_nil]
      rw [if_pos hadj]
    simp only [hA, decide_True, Bool.true_and, Bool.true_or, eq_self_iff_true, if_true,
      List.getD_cons_zero]
    have hstrne : ∀ x, strIdxsOf cl = [x] → x ≠ i ∧ x ≠ i + 1 := by
      intro x hx
      have hxm : x ∈ errStrIdxs (proto.args.drop (if className.isSome then 1 else 0)) := by
        rw [← hstrIdx, hx]
        exact List.mem_singleton.mpr rfl
      have hxerr := (mem_errStrIdxs_bound _ x hxm).2
      constructor
      · intro hcon
        rw [hcon] at hxerr
        exact not_obj_and_err _ ⟨hi.2, hxerr⟩
      · intro hcon
        rw [hcon, hadj] at hxerr
        simp [isErrStrArg] at hxerr
    have hsingleton : ∀ b : Bool,
        (decide ((strIdxsOf cl).length = 1) && b) = true → ∃ x, strIdxsOf cl = [x] := by
      intro b hb
      rw [Bool.and_eq_true, decide_eq_true_eq] at hb
      cases hsl : strIdxsOf cl with
      | nil => rw [hsl] at hb; simp at hb
      | cons a t =>
        cases t with
        | nil => exact ⟨a, rfl⟩
        | cons b2 t2 => rw [hsl] at hb; simp at hb
    have hbaseElem : (((cl.map (·.1)).set (i + 1) (ArgExpr.lenOf i)).set i
        ArgExpr.resultOutPtr)[i + 1]? = some (ArgExpr.lenOf i) := by
      rw [List.getElem?_set_ne (by omega : i ≠ i + 1),
        List.getElem?_set_self (by simp only [List.length_map, hlen]; exact hi2)]
    have hparamElem : ((((List.range
        (proto.args.drop (if className.isSome then 1 else 0)).length).map
          (fun k => some (PubParam.arg k))).set (i + 1) none).set i none)[i]? =
        some none := by
      rw [List.getElem?_set_self
        (by simp only [List.length_set, List.length_map, List.length_range]; omega)]
    have hother0 : ∀ j, j ≠ i → ∀ pp,
        ((((List.range (proto.args.drop (if className.isSome then 1 else 0)).length).map
          (fun k => some (PubParam.arg k))).set (i + 1) none).set i none)[j]? =
          some (some pp) → pp ≠ .arg i := by
      intro j hji pp hj pe
      rw [List.getElem?_set_ne (Ne.symm hji)] at hj
      rcases eq_or_ne (i + 1) j with rfl | hj1
      · rw [List.getElem?_set_self'] at hj
        cases hx0 : ((List.range (proto.args.drop (if className.isSome then 1 else 0)).length).map
            (fun k => some (PubParam.arg k)))[i + 1]? with
        | none => rw [hx0] at hj; simp at hj
        | some v => rw [hx0] at hj; simp at hj
      · rw [List.getElem?_set_ne hj1, params0_getElem] at hj
        by_cases hjlt : j < (proto.args.drop (if className.isSome then 1 else 0)).length
        · rw [if_pos hjlt] at hj
          injection hj with hj2
          injection hj2 with hj3
          rw [pe] at hj3
          exact hji (by injection hj3)
        · rw [if_neg hjlt] at hj
          exact Option.noConfusion hj
    split
    case isTrue he =>
      obtain ⟨x, hx⟩ := hsingleton _ he
      obtain ⟨hxi, hxi1⟩ := hstrne x hx
      simp only [hx, List.getD_cons_zero]
      have hargsElem : ((((cl.map (·.1)).set (i + 1) (ArgExpr.lenOf i)).set i
          ArgExpr.resultOutPtr).set x ArgExpr.errorStr)[i + 1]? = some (ArgExpr.lenOf i) := by
        rw [List.getElem?_set_ne hxi1, hbaseElem]
      have hpElem : (((((List.range
          (proto.args.drop (if className.isSome then 1 else 0)).length).map
            (fun k => some (PubParam.arg k))).set (i + 1) none).set i none).set x none)[i]? =
          some none := by
        rw [List.getElem?_set_ne hxi, hparamElem]
      have henv : ∀ vals : List PyVal, mkEnv (((((List.range
          (proto.args.drop (if className.isSome then 1 else 0)).length).map
            (fun k => some (PubParam.arg k))).set (i + 1) none).set i none).set x none)
          vals i = none := by
        intro vals
        apply mkEnv_none
        apply not_mem_retained_of_set_none _ _ hpElem
        intro j hji pp hj pe
        rcases eq_or_ne x j with rfl | hxj
        · rw [List.getElem?_set_self'] at hj
          cases hx0 : ((((List.range
              (proto.args.drop (if className.isSome then 1 else 0)).length).map
                (fun k => some (PubParam.arg k))).set (i + 1) none).set i none)[x]? with
          | none => rw [hx0] at hj; simp at hj
          | some v => rw [hx0] at hj; simp at hj
        · rw [List.getElem?_set_ne hxj] at hj
          exact hother0 j hji pp hj pe
      refine ⟨?_, ?_, henv, ?_⟩
      · rw [List.getD_eq_getElem?_getD, hargsElem]
        rfl
      · rw [List.getD_eq_getElem?_getD, hpElem]
        rfl
      · intro vals selfH enc c
        apply runWrapper_error_of_eval
        apply evalArgs_not_ok _ _ (.lenOf i) (List.getElem?_mem hargsElem)
        intro u h
        simp only [evalArg, henv vals] at h
        exact Except.noConfusion h
    case isFalse he =>
      have henv : ∀ vals : List PyVal, mkEnv ((((List.range
          (proto.args.drop (if className.isSome then 1 else 0)).length).map
            (fun k => some (PubParam.arg k))).set (i + 1) none).set i none)
          vals i = none := by
        intro vals
        apply mkEnv_none
        exact not_mem_retained_of_set_none _ _ hparamElem hother0
      refine ⟨?_, ?_, henv, ?_⟩
      · rw [List.getD_eq_getElem?_getD, hbaseElem]
        rfl
      · rw [List.getD_eq_getElem?_getD, hparamElem]
        rfl
      · intro vals selfH enc c
        apply runWrapper_error_of_eval
        apply evalArgs_not_ok _ _ (.lenOf i) (List.getElem?_mem hbaseElem)
        intro u h
        simp only [evalArg, henv vals] at h
        exact Except.noConfusion h

end LLVMCPy

namespace LLVMCPy

theorem lenof_bug_C10_witness :
    exC10Gen.callArgs.getD 1 default = .lenOf 0 ∧
    exC10Gen.publicParams.getD 0 (some (.arg 0)) = none ∧
    (∃ ex, runWrapper exC10Gen 5 (mkEnv exC10Gen.publicParams []) none exOkCall =
      .error ex) := by
  obtain ⟨h1, h2, _, h4⟩ := lenof_bug_C10 "LLVMCreateTs" exC10Proto (some "Owner") []
    exC10Gen 0 rfl rfl (by decide) rfl
  exact ⟨h1, h2, h4 [] 5 none exOkCall⟩

end LLVMCPy

namespace LLVMCPy

theorem adjacencyRewrite_noop (eff : List CType) :
    ∀ (outArgs : List Nat),
      (∀ i ∈ outArgs, eff.getD (i + 1) .void ≠ .primitive "unsigned int") →
      ∀ st, adjacencyRewrite eff outArgs st = st := by
  intro outArgs
  induction outArgs with
  | nil => intro _ st; rfl
  | cons a t ih =>
    intro h st
    have hrest := ih (fun i hi => h i (List.mem_cons_of_mem _ hi)) st
    rw [adjacencyRewrite] at hrest ⊢
    rw [List.foldl_cons, if_neg (h a (List.mem_cons_self a t))]
    exact hrest

theorem refs_subset_retained (args2 : List ArgExpr) (params2 : List (Option PubParam))
    (h : ∀ j, j < args2.length →
      argExprRef (args2.getD j default) = none ∨
      (argExprRef (args2.getD j default) = some j ∧ params2[j]? = some (some (.arg j)))) :
    argRefsOf args2 ⊆ retainedArgIdxs params2 := by
  intro r hr
  obtain ⟨a, ha, hae⟩ := List.mem_filterMap.mp hr
  obtain ⟨j, hj, hje⟩ := List.getElem_of_mem ha
  have hgetD : args2.getD j default = a := by
    rw [List.getD_eq_getElem?_getD, List.getElem?_eq_getElem hj, hje]
    rfl
  rcases h j hj with hnone | ⟨hsome, hparam⟩
  · rw [hgetD, hae] at hnone
    exact Option.noConfusion hnone
  · rw [hgetD, hae] at hsome
    injection hsome with hrj
    subst hrj
    exact List.mem_filterMap.mpr ⟨some (.arg r), List.getElem?_mem hparam, rfl⟩

/-- C2, counterexample.  The claim fails on the overlap shape of C10: for
`LLVMCreateTs : (OwnerRef, T**, unsigned int) -> int` the return type is
plain `int` and there is exactly one object-out argument, so the claim
promises that a zero result returns the allocated handle — yet the
generated wrapper raises a `NameError` on this invocation even though the
underlying call reports success (`intResult = 0`), because the
length-adjacency rewrite left `len(arg0)` in the emitted call after the
boolean-error rewrite removed `arg0` from the public signature. -/
theorem bool_error_C2_cex :
    createFunction "LLVMCreateTs" exC10Proto (some "Owner") [] = .ok exC10Gen ∧
    exC10Proto.result = .primitive "int" ∧
    objOutIdxs (effArgsOf exC10Proto (some "Owner")) = [0] ∧
    exOkCall.intResult = 0 ∧
    runWrapper exC10Gen 9 (mkEnv exC10Gen.publicParams []) none exOkCall =
      .error (.nameErr 0) := by
  refine ⟨rfl, rfl, by decide, rfl, rfl⟩

/-- C2 (amended).  For every classified function whose return type is plain
`int` and which has exactly one object-out argument or a single
error-message (`char **`) argument in the last call-boundary position, the
generator selects the boolean-error template: the object-out slot is
scratch-allocated exactly when there is exactly one object-out argument
(and then the result is wrapped in its type), and the error-message slot
exactly when the `char **` condition holds; PROVIDED no object-out
argument is immediately followed by an `unsigned int` argument, the
emitted call references only retained parameters (in the single object-out
case), and every invocation whose argument evaluation succeeds returns the
allocated handle (or `None` without an object-out argument) when the
underlying call returns zero, and raises exactly when it returns non-zero,
carrying the decoded message when the error slot exists and the generic
message otherwise. -/
theorem bool_error_C2_amended
    (name : String) (proto : Prototype) (className : Option String)
    (classes : List (String × List (String × Prototype))) (g : Generated)
    (h1 : createFunction name proto className classes = .ok g)
    (hret : proto.result = .primitive "int")
    (hcond : (objOutIdxs (effArgsOf proto className)).length = 1 ∨
      errStrLast (effArgsOf proto className) = true)
    (hprov : ∀ i ∈ objOutIdxs (effArgsOf proto className),
      (effArgsOf proto className).getD (i + 1) .void ≠ .primitive "unsigned int") :
    ∃ o r e, g.strategy = .boolError o r e ∧
      o.isSome = decide ((objOutIdxs (effArgsOf proto className)).length = 1) ∧
      r.isSome = o.isSome ∧
      e = errStrLast (effArgsOf proto className) ∧
      ((objOutIdxs (effArgsOf proto className)).length = 1 →
        argRefsOf g.callArgs ⊆ retainedArgIdxs g.publicParams) ∧
      (∀ (selfH : Nat) (env : Nat → Option PyVal) (enc : Option String) (c : CCall),
        (g.isClassMethod = true → selfH ≠ 0) →
        evalArgs env g.callArgs = .ok () →
        runWrapper g selfH env enc c =
          if c.intResult ≠ 0 then
            .error (.llvmError (if e then .decoded (cStringOf c.errBytes) else .generic))
          else
            .ok (match r with
                 | some tn => .obj tn c.outHandle
                 | none => .pynone)) := by
  simp only [effArgsOf] at hcond hprov ⊢
  cases hc : classifyArgs (proto.args.drop (if className.isSome then 1 else 0)) with
  | error e => simp [createFunction, hc] at h1
  | ok cl =>
    obtain ⟨hlen, houtIdx, hstrIdx, href⟩ := classifyArgs_corr _ cl hc
    have hprov2 : ∀ i ∈ outIdxsOf cl,
        (proto.args.drop (if className.isSome then 1 else 0)).getD (i + 1) .void ≠
          .primitive "unsigned int" := by
      rw [houtIdx]
      exact hprov
    have hcc : (decide (proto.result = CType.primitive "int") &&
        (decide ((outIdxsOf cl).length = 1) ||
         decide ((strIdxsOf cl).length = 1) &&
         decide ((strIdxsOf cl).getD 0 0 = (cl.map (fun q => q.1)).length - 1))) = true := by
      rw [Bool.and_eq_true, Bool.or_eq_true, Bool.and_eq_true]
      simp only [decide_eq_true_eq]
      refine ⟨hret, ?_⟩
      rw [houtIdx, hstrIdx, List.length_map, hlen]
      rcases hcond with h | h
      · exact Or.inl h
      · simp only [errStrLast, Bool.and_eq_true, decide_eq_true_eq] at h
        exact Or.inr h
    simp only [createFunction, hc, adjacencyRewrite_noop _ _ hprov2, hcc,
      eq_self_iff_true, if_true, Except.ok.injEq] at h1
    subst h1
    refine ⟨_, _, _, rfl, ?_, ?_, ?_, ?_, ?_⟩
    · simp only [houtIdx]
      by_cases hx :
          (objOutIdxs (proto.args.drop (if className.isSome then 1 else 0))).length = 1 <;>
        simp [hx]
    · by_cases hx : (outIdxsOf cl).length = 1 <;> simp [hx]
    · simp only [hstrIdx, List.length_map, hlen, errStrLast]
    · intro hA1
      obtain ⟨i, hsing⟩ :
          ∃ i, objOutIdxs (proto.args.drop (if className.isSome then 1 else 0)) = [i] := by
        cases hl : objOutIdxs (proto.args.drop (if className.isSome then 1 else 0)) with
        | nil => rw [hl] at hA1; simp at hA1
        | cons a t =>
          cases t with
          | nil => exact ⟨a, rfl⟩
          | cons b t2 => rw [hl] at hA1; simp at hA1
      have hiB := mem_objOutIdxs_bound _ i (by rw [hsing]; exact List.mem_singleton.mpr rfl)
      have hOA : (outIdxsOf cl).length = 1 := by rw [houtIdx, hsing]; rfl
      have hgetd : (outIdxsOf cl).getD 0 0 = i := by rw [houtIdx, hsing]; rfl
      have hbase : ∀ j, j < cl.length →
          (cl.map (fun q => q.1))[j]? = some ((cl.getD j default).1) := by
        intro j hj
        rw [List.getElem?_map, List.getD_eq_getElem?_getD, List.getElem?_eq_getElem hj]
        rfl
      rw [if_pos hOA, hgetd]
      split
      case isTrue he =>
        obtain ⟨x, hx⟩ : ∃ x, strIdxsOf cl = [x] := by
          simp only [Bool.and_eq_true, decide_eq_true_eq] at he
          cases hsl : strIdxsOf cl with
          | nil => rw [hsl] at he; simp at he
          | cons a t =>
            cases t with
            | nil => exact ⟨a, rfl⟩
            | cons b t2 => rw [hsl] at he; simp at he
        have hxm : x ∈ errStrIdxs (proto.args.drop (if className.isSome then 1 else 0)) := by
          rw [← hstrIdx, hx]
          exact List.mem_singleton.mpr rfl
        have hxB := mem_errStrIdxs_bound _ x hxm
        have hxi : x ≠ i := by
          intro hcon
          rw [hcon] at hxB
          exact not_obj_and_err _ ⟨hiB.2, hxB.2⟩
        simp only [hx, List.getD_cons_zero]
        refine refs_subset_retained
          (((cl.map (fun q => q.1)).set i .resultOutPtr).set x .errorStr)
          ((((List.range
              (proto.args.drop (if className.isSome then 1 else 0)).length).map
            (fun k => some (PubParam.arg k))).set i none).set x none) ?_
        intro j hj
        have hjn : j < (proto.args.drop (if className.isSome then 1 else 0)).length := by
          simpa only [List.length_set, List.length_map, hlen] using hj
        rcases eq_or_ne j x with rfl | hjx
        · left
          rw [List.getD_eq_getElem?_getD, List.getElem?_set_self
            (by simp only [List.length_set, List.length_map, hlen]; exact hxB.1)]
          rfl
        rcases eq_or_ne j i with rfl | hji
        · left
          rw [List.getD_eq_getElem?_getD, List.getElem?_set_ne hxi, List.getElem?_set_self
            (by simp only [List.length_map, hlen]; exact hiB.1)]
          rfl
        right
        constructor
        · rw [List.getD_eq_getElem?_getD, List.getElem?_set_ne (Ne.symm hjx),
            List.getElem?_set_ne (Ne.symm hji), hbase j (by rw [hlen]; exact hjn)]
          exact href j hjn
        · rw [List.getElem?_set_ne (Ne.symm hjx), List.getElem?_set_ne (Ne.symm hji),
            params0_getElem, if_pos hjn]
      case isFalse he =>
        refine refs_subset_retained
          ((cl.map (fun q => q.1)).set i .resultOutPtr)
          (((List.range
              (proto.args.drop (if className.isSome then 1 else 0)).length).map
            (fun k => some (PubParam.arg k))).set i none) ?_
        intro j hj
        have hjn : j < (proto.args.drop (if className.isSome then 1 else 0)).length := by
          simpa only [List.length_set, List.length_map, hlen] using hj
        rcases eq_or_ne j i with rfl | hji
        · left
          rw [List.getD_eq_getElem?_getD, List.getElem?_set_self
            (by simp only [List.length_map, hlen]; exact hiB.1)]
          rfl
        right
        constructor
        · rw [List.getD_eq_getElem?_getD, List.getElem?_set_ne (Ne.symm hji),
            hbase j (by rw [hlen]; exact hjn)]
          exact href j hjn
        · rw [List.getElem?_set_ne (Ne.symm hji), params0_getElem, if_pos hjn]
    · intro selfH env enc c hs he
      rw [runWrapper_ok_strategy _ selfH env enc c hs he]

theorem bool_error_C2_amended_witness :
    ∃ o r e, exC2Gen.strategy = .boolError o r e ∧
      o.isSome = decide ((objOutIdxs (effArgsOf exC2Proto (some "Owner"))).length = 1) ∧
      r.isSome = o.isSome ∧
      e = errStrLast (effArgsOf exC2Proto (some "Owner")) ∧
      ((objOutIdxs (effArgsOf exC2Proto (some "Owner"))).length = 1 →
        argRefsOf exC2Gen.callArgs ⊆ retainedArgIdxs exC2Gen.publicParams) ∧
      (∀ (selfH : Nat) (env : Nat → Option PyVal) (enc : Option String) (c : CCall),
        (exC2Gen.isClassMethod = true → selfH ≠ 0) →
        evalArgs env exC2Gen.callArgs = .ok () →
        runWrapper exC2Gen selfH env enc c =
          if c.intResult ≠ 0 then
            .error (.llvmError (if e then .decoded (cStringOf c.errBytes) else .generic))
          else
            .ok (match r with
                 | some tn => .obj tn c.outHandle
                 | none => .pynone)) :=
  bool_error_C2_amended "LLVMCreateT" exC2Proto (some "Owner") [] exC2Gen rfl rfl
    (Or.inl (by decide)) (by decide)

end LLVMCPy
